import Mathlib

/-!
# Currency aggregation: `api_fetch/concurrent` and `api_fetch/single_thread`

A shallow embedding of the two Go programs of the repository.  Both fetch the
list of sites, resolve every site's default currency and its conversion ratio
to USD, and collect the ratios in a `map[string]float64`.

* The HTTP client (`resty.R().Get`) and the JSON decoder (`json.Unmarshal`) are
  libraries outside the repository; they are the fields of `Upstream`.
* `fmt.Println` calls are not part of the model.
* `GetAllSites`, `GetSite` and `GetCurrencyConversion` have the same code in
  both programs (up to the `fmt.Println` lines) and are embedded once.
* Every function returns, next to its Go result, the list of URLs it requested.
* The concurrent `GetAllCurrencies` is a transition system over the program
  counters of its goroutines (`concurrent.step`): one goroutine moves at a
  time, and a send on the unbuffered channel happens together with the receive.
  A run is the execution of a schedule (`concurrent.exec`).
-/

namespace ApiFetch

/-! ## Data model -/

/-- A Go `error` value. -/
structure Error where
  msg : String
deriving DecidableEq, Repr

/-- A Go `float64`.  The programs only decode, store and return ratios and never
compute with them; a ratio is modelled by the number it denotes. -/
abbrev Float64 := ℚ

/-- An element of the Go type `Sites` (`[]struct{Id, Name}`). -/
structure SiteSummary where
  Id : String
  Name : String
deriving DecidableEq, Repr

/-- The Go type `Sites`. -/
abbrev Sites := List SiteSummary

/-- The Go type `Site`. -/
structure Site where
  Id : String
  Name : String
  CountryId : String
  DefaultCurrencyId : String
deriving DecidableEq, Repr

/-- The Go type `CurrencyConversion`. -/
structure CurrencyConversion where
  From : String
  To : String
  Ratio : Float64
deriving DecidableEq, Repr

/-- What `resty.R().Get` hands back when the transport succeeded: the status
code and the body of the HTTP response. -/
structure Response where
  StatusCode : Nat
  Body : String
deriving DecidableEq, Repr

/-- A success status in the sense of the HTTP client (`IsSuccess`): 2xx. -/
def Response.IsSuccess (r : Response) : Bool :=
  decide (199 < r.StatusCode) && decide (r.StatusCode < 300)

/-- Who issues a request: `GetAllCurrencies` itself (the site list), or the
resolution of the `k`-th site of the list (the `k`-th iteration of the
sequential loop, the `k`-th `ProcessAllSiteIds` goroutine). -/
inductive Caller where
  | aggregator
  | resolver (k : Nat)
deriving DecidableEq, Repr

/-- The libraries and the remote API the programs run against.

`Get c url` is the outcome of `resty.R().Get(url)` for the caller `c`: a
transport error, or a response of any status (the client reports a non-2xx
status in the response, not as an error).  The outcome may depend on the
caller, so that two resolutions may get different answers to the same URL;
`Upstream.Stable` says that it does not.  The three `Unmarshal` fields are
`json.Unmarshal` into a fresh `Sites`, `Site` and `CurrencyConversion`. -/
structure Upstream where
  Get : Caller → String → Except Error Response
  UnmarshalSites : String → Except Error Sites
  UnmarshalSite : String → Except Error Site
  UnmarshalConversion : String → Except Error CurrencyConversion

/-- The upstream is stable: the same URL gets the same outcome, whoever asks. -/
def Upstream.Stable (w : Upstream) : Prop :=
  ∀ (c d : Caller) (url : String), w.Get c url = w.Get d url

/-- The upstream `w` with the status code of every response replaced by `status`. -/
def Upstream.withStatus (w : Upstream) (status : Nat) : Upstream :=
  { w with
    Get := fun c url =>
      match w.Get c url with
      | .error err => .error err
      | .ok resp => .ok { resp with StatusCode := status } }

/-! ## Constants -/

/-- The constant `SITES_ALL_URL`. -/
def SITES_ALL_URL : String := "https://api.mercadolibre.com/sites"

/-- The string `fmt.Sprintf(SITES_SEARCH_URL, siteId)`. -/
def SITES_SEARCH_URL (siteId : String) : String :=
  "https://api.mercadolibre.com/sites/" ++ siteId

/-- The string `fmt.Sprintf(CURRENCIES_CONVERSION_URL, from, to)`. -/
def CURRENCIES_CONVERSION_URL (frm target : String) : String :=
  "https://api.mercadolibre.com/currency_conversions/search?from=" ++ frm ++ "&to=" ++ target

/-- The constant `CURRENCY_USD`. -/
def CURRENCY_USD : String := "USD"

/-! ## The result map -/

/-- A Go `map[string]float64`: a list of entries with at most one entry per key
(`Table.assign` keeps it so).  The order of the entries has no meaning. -/
abbrev Table := List (String × Float64)

/-- The Go statement `m[k] = v`. -/
def Table.assign : Table → String → Float64 → Table
  | [], k, v => [(k, v)]
  | (k', v') :: rest, k, v =>
      if k' = k then (k, v) :: rest else (k', v') :: Table.assign rest k v

/-- The Go expression `m[k]` with its presence flag. -/
def Table.lookup : Table → String → Option Float64
  | [], _ => none
  | (k', v') :: rest, k => if k' = k then some v' else Table.lookup rest k

/-- The keys of the map. -/
def Table.keys (m : Table) : List String := m.map Prod.fst

/-! ## The fetch functions (the same in both programs) -/

/-- The function `GetAllSites`: one GET of the site list, decoded as `Sites`. -/
def GetAllSites (w : Upstream) : Except Error Sites × List String :=
  match w.Get Caller.aggregator SITES_ALL_URL with
  | .error err => (.error err, [SITES_ALL_URL])
  | .ok resp =>
    match w.UnmarshalSites resp.Body with
    | .error err => (.error err, [SITES_ALL_URL])
    | .ok sites => (.ok sites, [SITES_ALL_URL])

/-- The function `GetSite`: one GET of the site detail, decoded as `Site`. -/
def GetSite (w : Upstream) (c : Caller) (siteId : String) : Except Error Site × List String :=
  match w.Get c (SITES_SEARCH_URL siteId) with
  | .error err => (.error err, [SITES_SEARCH_URL siteId])
  | .ok resp =>
    match w.UnmarshalSite resp.Body with
    | .error err => (.error err, [SITES_SEARCH_URL siteId])
    | .ok site => (.ok site, [SITES_SEARCH_URL siteId])

/-- The function `GetCurrencyConversion`: `GetSite`, then one GET of the conversion from the
site's default currency to `target` (the Go parameter `to`); `From` and `To`
of the decoded value are overwritten. -/
def GetCurrencyConversion (w : Upstream) (c : Caller) (siteId target : String) :
    Except Error CurrencyConversion × List String :=
  match GetSite w c siteId with
  | (.error err, reqs) => (.error err, reqs)
  | (.ok site, reqs) =>
    let uri := CURRENCIES_CONVERSION_URL site.DefaultCurrencyId target
    match w.Get c uri with
    | .error err => (.error err, reqs ++ [uri])
    | .ok resp =>
      match w.UnmarshalConversion resp.Body with
      | .error err => (.error err, reqs ++ [uri])
      | .ok conversion =>
        (.ok { conversion with From := site.DefaultCurrencyId, To := target }, reqs ++ [uri])

/-! ## `single_thread`: the sequential aggregation -/

namespace single_thread

/-- The loop `for _, site := range *sites` of `GetAllCurrencies`, entered at the
`k`-th site with the map `result`; a failed resolution leaves the map as it is. -/
def rangeSites (w : Upstream) : Nat → Sites → Table → List String → Table × List String
  | _, [], result, reqs => (result, reqs)
  | k, site :: rest, result, reqs =>
    match GetCurrencyConversion w (Caller.resolver k) site.Id CURRENCY_USD with
    | (.ok convRate, r) =>
      rangeSites w (k + 1) rest (Table.assign result convRate.From convRate.Ratio) (reqs ++ r)
    | (.error _, r) => rangeSites w (k + 1) rest result (reqs ++ r)

/-- The function `GetAllCurrencies` of `single_thread/example1.go`. -/
def GetAllCurrencies (w : Upstream) : Except Error Table × List String :=
  match GetAllSites w with
  | (.error err, reqs) => (.error err, reqs)
  | (.ok sites, reqs) =>
    let out := rangeSites w 0 sites [] reqs
    (.ok out.1, out.2)

end single_thread

/-! ## `concurrent`: the goroutines of the fan-out / fan-in aggregation -/

namespace concurrent

/-- Where the goroutine running `GetAllCurrencies` stands. -/
inductive MainPc where
  /-- Line 56, before `GetAllSites()`. -/
  | getAllSites
  /-- Line 76, before `go HandleResults(...)`; channel, map and WaitGroup exist. -/
  | goHandleResults
  /-- Lines 78-80, at the head of the `range` loop with `i` sites done. -/
  | wgAdd (i : Nat)
  /-- Line 82, before `go ProcessAllSiteIds(c, site.Id)` for the `i`-th site. -/
  | goProcess (i : Nat)
  /-- Line 86, at `wg.Wait()`. -/
  | wgWait
  /-- After `return`, with the returned values. -/
  | returned (r : Except Error Table)
deriving Repr

/-- Where the goroutine running `HandleResults` stands. -/
inductive HandlerPc where
  /-- The goroutine does not exist yet. -/
  | notStarted
  /-- Line 94, the guard `wg == nil || loop == 0`. -/
  | entry
  /-- Lines 100-102, the loop head with index `i`, then the receive `<-c`. -/
  | receive (i : Nat)
  /-- Lines 103-106, with the received value in `conv`. -/
  | store (i : Nat) (conv : Option CurrencyConversion)
  /-- Line 108, before `wg.Done()`. -/
  | wgDone (i : Nat)
  /-- The function has returned. -/
  | returned
deriving DecidableEq, Repr

/-- Where a goroutine running `ProcessAllSiteIds` stands. -/
inductive ProcessPc where
  /-- Line 115, before `GetCurrencyConversion(siteId, CURRENCY_USD)`. -/
  | resolve (siteId : String)
  /-- Line 117 or 120, at the send of `conv` (`none` is Go's `nil`). -/
  | send (conv : Option CurrencyConversion)
  /-- The function has returned. -/
  | returned
  /-- The send hit a closed channel. -/
  | panicked
deriving DecidableEq, Repr

/-- The state of one run of the concurrent `GetAllCurrencies`.  The last four
fields are history variables: they record what happened and steer nothing. -/
structure State where
  main : MainPc
  /-- The value of `*sites`. -/
  sites : Sites
  handler : HandlerPc
  /-- The parameter `loop` of `HandleResults`. -/
  loop : Nat
  /-- The `ProcessAllSiteIds` goroutines, in the order they were launched. -/
  procs : List ProcessPc
  /-- The counter of the WaitGroup `wg`. -/
  wg : Int
  /-- Whether the channel `c` has been closed. -/
  closed : Bool
  /-- The map `result`, which `HandleResults` knows as `m`. -/
  result : Table
  /-- History: the URLs requested so far. -/
  requests : List String
  /-- History: the goroutines whose value `HandleResults` received, in order of arrival. -/
  arrivals : List Nat
  /-- History: the number of `wg.Add(1)` calls. -/
  adds : Nat
  /-- History: the number of `wg.Done()` calls. -/
  dones : Nat
deriving Repr

/-- The state at the call of `GetAllCurrencies`. -/
def State.init : State :=
  { main := MainPc.getAllSites, sites := [], handler := HandlerPc.notStarted, loop := 0,
    procs := [], wg := 0, closed := false, result := [], requests := [], arrivals := [],
    adds := 0, dones := 0 }

/-- Lines 103-106 of `HandleResults`: a non-nil value is stored under its `From`. -/
def HandleResults.store (m : Table) : Option CurrencyConversion → Table
  | some conv => Table.assign m conv.From conv.Ratio
  | none => m

/-- Lines 115-120 of `ProcessAllSiteIds` up to the send: the value put on the
channel (`none` when `GetCurrencyConversion` failed) and the URLs requested. -/
def ProcessAllSiteIds.resolve (w : Upstream) (k : Nat) (siteId : String) :
    Option CurrencyConversion × List String :=
  match GetCurrencyConversion w (Caller.resolver k) siteId CURRENCY_USD with
  | (.ok convRate, reqs) => (some convRate, reqs)
  | (.error _, reqs) => (none, reqs)

/-- The value the `k`-th `ProcessAllSiteIds` goroutine sends when the site list
is `sites`: the goroutine is launched with the `Id` of the `k`-th site. -/
def message (w : Upstream) (sites : Sites) (k : Nat) : Option CurrencyConversion :=
  match sites[k]? with
  | some site => (ProcessAllSiteIds.resolve w k site.Id).1
  | none => none

/-- The map after `HandleResults` has run lines 103-106 on the values
`received`, in this order, starting from the map `m`. -/
def HandleResults.collect (m : Table) (received : List (Option CurrencyConversion)) : Table :=
  received.foldl HandleResults.store m

/-- The goroutines. -/
inductive Actor where
  | main
  | handler
  | process (k : Nat)
deriving DecidableEq, Repr

/-- One step of the goroutine running `GetAllCurrencies`.  `wg.Wait()` is passed
only when the counter is zero; the `return` that follows runs the deferred
`close(c)`.  The early `return nil, err` of line 60 comes before the `defer`. -/
def stepMain (w : Upstream) (s : State) : Option State :=
  match s.main with
  | .getAllSites =>
    match GetAllSites w with
    | (.error err, reqs) =>
      some { s with main := .returned (.error err), requests := s.requests ++ reqs }
    | (.ok sites, reqs) =>
      some { s with main := .goHandleResults, sites := sites, requests := s.requests ++ reqs }
  | .goHandleResults =>
    some { s with main := .wgAdd 0, handler := .entry, loop := s.sites.length }
  | .wgAdd i =>
    if i < s.sites.length then
      some { s with main := .goProcess i, wg := s.wg + 1, adds := s.adds + 1 }
    else
      some { s with main := .wgWait }
  | .goProcess i =>
    match s.sites[i]? with
    | some site => some { s with main := .wgAdd (i + 1), procs := s.procs ++ [.resolve site.Id] }
    | none => none
  | .wgWait =>
    if s.wg = 0 then
      some { s with main := .returned (.ok s.result), closed := true }
    else
      none
  | .returned _ => none

/-- One step of the goroutine running `HandleResults`.  At `receive i` with
`i < loop` it waits for a sender (see `stepProcess`) unless the channel is
closed, in which case the receive yields `nil`.  `wg.Done()` decrements the
counter, which is an integer here: a negative counter is where Go panics. -/
def stepHandler (s : State) : Option State :=
  match s.handler with
  | .notStarted => none
  | .entry =>
    if s.loop = 0 then some { s with handler := .returned }
    else some { s with handler := .receive 0 }
  | .receive i =>
    if i < s.loop then
      if s.closed then some { s with handler := .store i none } else none
    else
      some { s with handler := .returned }
  | .store i conv =>
    some { s with handler := .wgDone i, result := HandleResults.store s.result conv }
  | .wgDone i =>
    some { s with handler := .receive (i + 1), wg := s.wg - 1, dones := s.dones + 1 }
  | .returned => none

/-- One step of the `k`-th `ProcessAllSiteIds` goroutine.  The channel has no
buffer: the send happens together with the receive of `HandleResults`. -/
def stepProcess (w : Upstream) (s : State) (k : Nat) : Option State :=
  match s.procs[k]? with
  | some (.resolve siteId) =>
    let out := ProcessAllSiteIds.resolve w k siteId
    some { s with procs := s.procs.set k (.send out.1), requests := s.requests ++ out.2 }
  | some (.send conv) =>
    if s.closed then
      some { s with procs := s.procs.set k .panicked }
    else
      match s.handler with
      | .receive i =>
        if i < s.loop then
          some { s with procs := s.procs.set k .returned, handler := .store i conv,
                        arrivals := s.arrivals ++ [k] }
        else
          none
      | _ => none
  | _ => none

/-- One step of the goroutine `a`; `none` when it cannot move. -/
def step (w : Upstream) (s : State) : Actor → Option State
  | .main => stepMain w s
  | .handler => stepHandler s
  | .process k => stepProcess w s k

/-- The run under a schedule; `none` when the schedule picks a goroutine that cannot move. -/
def exec (w : Upstream) : List Actor → State → Option State
  | [], s => some s
  | a :: rest, s => (step w s a).bind (exec w rest)

/-- A state some schedule leads to from the call of `GetAllCurrencies`. -/
def Reachable (w : Upstream) (s : State) : Prop :=
  ∃ sched : List Actor, exec w sched State.init = some s

end concurrent

/-! ## The invariant, the step budget and the in-order schedule of the concurrent run -/

namespace concurrent

/-- Nothing has been launched yet. -/
def Idle (s : State) : Prop :=
  s.handler = HandlerPc.notStarted ∧ s.procs = [] ∧ s.adds = 0 ∧ s.dones = 0 ∧
    s.closed = false ∧ s.result = [] ∧ s.arrivals = [] ∧ s.loop = 0

/-- The site list is in `sites` and `HandleResults` was launched with `loop = len(*sites)`. -/
def Started (w : Upstream) (s : State) : Prop :=
  (GetAllSites w).1 = .ok s.sites ∧ s.handler ≠ HandlerPc.notStarted ∧ s.loop = s.sites.length

/-- What holds at each program point of `GetAllCurrencies`. -/
def MainOk (w : Upstream) (s : State) : MainPc → Prop
  | .getAllSites => Idle s ∧ s.sites = [] ∧ s.requests = []
  | .goHandleResults =>
      Idle s ∧ (GetAllSites w).1 = .ok s.sites ∧ s.requests = [SITES_ALL_URL]
  | .wgAdd i =>
      Started w s ∧ i ≤ s.sites.length ∧ s.procs.length = i ∧ s.adds = i ∧ s.closed = false
  | .goProcess i =>
      Started w s ∧ i < s.sites.length ∧ s.procs.length = i ∧ s.adds = i + 1 ∧ s.closed = false
  | .wgWait =>
      Started w s ∧ s.procs.length = s.sites.length ∧ s.adds = s.sites.length ∧
        s.closed = false
  | .returned (.ok t) =>
      Started w s ∧ s.procs.length = s.sites.length ∧ s.adds = s.sites.length ∧
        s.closed = true ∧ s.wg = 0 ∧ t = s.result
  | .returned (.error err) =>
      Idle s ∧ (GetAllSites w).1 = .error err ∧ s.sites = [] ∧ s.requests = [SITES_ALL_URL]

/-- What holds at each program point of `HandleResults`. -/
def HandlerOk (w : Upstream) (s : State) : HandlerPc → Prop
  | .notStarted => s.arrivals = [] ∧ s.dones = 0 ∧ s.result = []
  | .entry => s.arrivals = [] ∧ s.dones = 0 ∧ s.result = []
  | .receive i =>
      s.arrivals.length = i ∧ s.dones = i ∧ i ≤ s.loop ∧
        s.result = HandleResults.collect [] (s.arrivals.map (message w s.sites))
  | .store i conv =>
      ∃ pre k, s.arrivals = pre ++ [k] ∧ pre.length = i ∧ conv = message w s.sites k ∧
        s.dones = i ∧ i < s.loop ∧
        s.result = HandleResults.collect [] (pre.map (message w s.sites))
  | .wgDone i =>
      s.arrivals.length = i + 1 ∧ s.dones = i ∧ i < s.loop ∧
        s.result = HandleResults.collect [] (s.arrivals.map (message w s.sites))
  | .returned =>
      s.arrivals.length = s.loop ∧ s.dones = s.loop ∧
        s.result = HandleResults.collect [] (s.arrivals.map (message w s.sites))

/-- What holds at each program point of the `k`-th `ProcessAllSiteIds`. -/
def ProcOk (w : Upstream) (s : State) (k : Nat) : ProcessPc → Prop
  | .resolve siteId => k ∉ s.arrivals ∧ ∃ site, s.sites[k]? = some site ∧ site.Id = siteId
  | .send conv => k ∉ s.arrivals ∧ conv = message w s.sites k
  | .returned => k ∈ s.arrivals
  | .panicked => False

/-- The invariant of the transition system. -/
structure Inv (w : Upstream) (s : State) : Prop where
  main_ok : MainOk w s s.main
  handler_ok : HandlerOk w s s.handler
  procs_ok : ∀ k p, s.procs[k]? = some p → ProcOk w s k p
  wg_eq : s.wg = (s.adds : Int) - (s.dones : Int)
  arrivals_nodup : s.arrivals.Nodup
  arrivals_lt : ∀ k ∈ s.arrivals, k < s.procs.length

/-- The number of sites the upstream lists (`0` when the list cannot be fetched). -/
def siteCount (w : Upstream) : Nat :=
  match (GetAllSites w).1 with
  | .ok sites => sites.length
  | .error _ => 0

/-- A bound on what `GetAllCurrencies` still has to do, launches included. -/
def mainSteps (n : Nat) : MainPc → Nat
  | .getAllSites => 4 * n + 4
  | .goHandleResults => 4 * n + 3
  | .wgAdd i => 4 * (n - i) + 2
  | .goProcess i => 4 * (n - i) + 1
  | .wgWait => 1
  | .returned _ => 0

/-- A bound on the steps `HandleResults` still has to take. -/
def handlerSteps (n : Nat) : HandlerPc → Nat
  | .notStarted => 3 * n + 3
  | .entry => 3 * n + 2
  | .receive i => 3 * (n - i) + 1
  | .store i _ => 3 * (n - i)
  | .wgDone i => 3 * (n - i) - 1
  | .returned => 0

/-- The steps a `ProcessAllSiteIds` goroutine still has to take. -/
def processSteps : ProcessPc → Nat
  | .resolve _ => 2
  | .send _ => 1
  | .returned => 0
  | .panicked => 0

/-- A bound on the number of steps the whole run can still take. -/
def stepsLeft (w : Upstream) (s : State) : Nat :=
  mainSteps (siteCount w) s.main + handlerSteps (siteCount w) s.handler +
    (s.procs.map processSteps).sum

/-- Every goroutine has returned (`HandleResults` may never have been launched). -/
def Final (s : State) : Prop :=
  (∃ r, s.main = MainPc.returned r) ∧
    (s.handler = HandlerPc.returned ∨ s.handler = HandlerPc.notStarted) ∧
    ∀ p ∈ s.procs, p = ProcessPc.returned

/-- The steps that take the `i`-th site from `wg.Add(1)` to `wg.Done()`. -/
def inOrderRound (i : Nat) : List Actor :=
  [Actor.main, Actor.main, Actor.process i, Actor.process i, Actor.handler, Actor.handler]

/-- The rounds of the first `n` sites, one after the other. -/
def inOrderRounds : Nat → List Actor
  | 0 => []
  | n + 1 => inOrderRounds n ++ inOrderRound n

/-- The schedule that serves `n` sites one after the other, up to the `return`
of `GetAllCurrencies`. -/
def inOrderSchedule (n : Nat) : List Actor :=
  [Actor.main, Actor.main, Actor.handler] ++ (inOrderRounds n ++ [Actor.main, Actor.main])

/-- The state between two rounds of the in-order run. -/
def AtRound (sites : Sites) (i : Nat) (s : State) : Prop :=
  s.main = MainPc.wgAdd i ∧ s.sites = sites ∧
    s.handler = (if sites.length = 0 then HandlerPc.returned else HandlerPc.receive i) ∧
    s.loop = sites.length ∧ s.procs = List.replicate i ProcessPc.returned ∧
    s.wg = 0 ∧ s.closed = false ∧ s.arrivals = List.range i

end concurrent

/-! ## Notions of the specification -/

namespace concurrent

/-- Under the schedule `sched` the concurrent `GetAllCurrencies` returns `r`, the values
of the goroutines having reached `HandleResults` in the order `arrivals`. -/
def Returns (w : Upstream) (sched : List Actor) (r : Except Error Table)
    (arrivals : List Nat) : Prop :=
  ∃ s : State, exec w sched State.init = some s ∧ s.main = MainPc.returned r ∧
    s.arrivals = arrivals

/-- A schedule for two sites in which both goroutines are launched first and the value
of the second site arrives before the value of the first. -/
def reverseSchedule : List Actor :=
  [Actor.main, Actor.main, Actor.handler, Actor.main, Actor.main, Actor.main, Actor.main,
    Actor.process 1, Actor.process 1, Actor.handler, Actor.handler,
    Actor.process 0, Actor.process 0, Actor.handler, Actor.handler,
    Actor.main, Actor.main, Actor.handler]

end concurrent

/-- The default currency of the `k`-th site of the list, when its `GetSite` succeeds. -/
def defaultCurrency (w : Upstream) (sites : Sites) (k : Nat) : Option String :=
  match sites[k]? with
  | some summary =>
    match (GetSite w (Caller.resolver k) summary.Id).1 with
    | .ok site => some site.DefaultCurrencyId
    | .error _ => none
  | none => none

/-- Whether `GetCurrencyConversion` succeeds for the `k`-th site of the list. -/
def resolves (w : Upstream) (sites : Sites) (k : Nat) : Bool :=
  match sites[k]? with
  | some summary =>
    match (GetCurrencyConversion w (Caller.resolver k) summary.Id CURRENCY_USD).1 with
    | .ok _ => true
    | .error _ => false
  | none => false

/-- The currency `c` is the default currency of a site of the list whose
`GetCurrencyConversion` succeeded. -/
def ResolvedCurrency (w : Upstream) (sites : Sites) (c : String) : Prop :=
  ∃ k : Nat, resolves w sites k = true ∧ defaultCurrency w sites k = some c

/-- The ratio of the last non-nil value of `received` whose `From` is `c`, if
there is one. -/
def lastRatioFrom (c : String) (received : List (Option CurrencyConversion)) : Option Float64 :=
  ((received.reverse.filterMap id).find? (fun conv => decide (conv.From = c))).map
    CurrencyConversion.Ratio

/-- Two maps with the same keys and the same value under every key. -/
def Table.Same (m m' : Table) : Prop :=
  ∀ c : String, Table.lookup m c = Table.lookup m' c

/-! ## Sample upstreams -/

/-- A site list with Argentina and Brasil. -/
def bodySitesAB : String :=
  "[\x7b\"id\":\"MLA\",\"name\":\"Argentina\"\x7d,\x7b\"id\":\"MLB\",\"name\":\"Brasil\"\x7d]"

/-- A site list with Ecuador and El Salvador, which both use the US dollar. -/
def bodySitesUSD : String :=
  "[\x7b\"id\":\"MEC\",\"name\":\"Ecuador\"\x7d,\x7b\"id\":\"MSV\",\"name\":\"El Salvador\"\x7d]"

/-- The body of an error answer of the API. -/
def bodyFailure : String := "\x7b\"message\":\"internal error\",\"status\":500\x7d"

/-- A conversion answer that carries `from` and `to` fields of its own. -/
def bodyForeignFields : String :=
  "\x7b\"from\":\"EUR\",\"to\":\"GBP\",\"ratio\":0.0025\x7d"

/-- The site detail of `id` with default currency `currency`. -/
def bodySite (id currency : String) : String :=
  "\x7b\"id\":\"" ++ id ++ "\",\"default_currency_id\":\"" ++ currency ++ "\"\x7d"

/-- The decoder `json.Unmarshal` into `Sites` on the sample bodies. -/
def sampleUnmarshalSites (body : String) : Except Error Sites :=
  if body = bodySitesAB then .ok [⟨"MLA", "Argentina"⟩, ⟨"MLB", "Brasil"⟩]
  else if body = bodySitesUSD then .ok [⟨"MEC", "Ecuador"⟩, ⟨"MSV", "El Salvador"⟩]
  else .error ⟨"json: cannot unmarshal object into Go value of type main.Sites"⟩

/-- The decoder `json.Unmarshal` into `Site` on the sample bodies; a JSON object
without the fields of `Site` decodes to the zero value. -/
def sampleUnmarshalSite (body : String) : Except Error Site :=
  if body = bodySite "MLA" "ARS" then .ok ⟨"MLA", "", "", "ARS"⟩
  else if body = bodySite "MLB" "BRL" then .ok ⟨"MLB", "", "", "BRL"⟩
  else if body = bodySite "MEC" "USD" then .ok ⟨"MEC", "", "", "USD"⟩
  else if body = bodySite "MSV" "USD" then .ok ⟨"MSV", "", "", "USD"⟩
  else if body = bodyFailure then .ok ⟨"", "", "", ""⟩
  else .error ⟨"unexpected end of JSON input"⟩

/-- The decoder `json.Unmarshal` into `CurrencyConversion` on the sample bodies; a
JSON object without the fields of `CurrencyConversion` decodes to the zero value. -/
def sampleUnmarshalConversion (body : String) : Except Error CurrencyConversion :=
  if body = "\x7b\"ratio\":0.0025\x7d" then .ok ⟨"", "", 0.0025⟩
  else if body = "\x7b\"ratio\":0.20\x7d" then .ok ⟨"", "", 0.20⟩
  else if body = "\x7b\"ratio\":1\x7d" then .ok ⟨"", "", 1⟩
  else if body = "\x7b\"ratio\":1.01\x7d" then .ok ⟨"", "", 1.01⟩
  else if body = bodyForeignFields then .ok ⟨"EUR", "GBP", 0.0025⟩
  else if body = bodyFailure then .ok ⟨"", "", 0⟩
  else .error ⟨"unexpected end of JSON input"⟩

/-- The answers of a healthy API for Argentina and Brasil, with status `status`. -/
def sampleGetAB (status : Nat) (url : String) : Except Error Response :=
  if url = "https://api.mercadolibre.com/sites" then .ok ⟨status, bodySitesAB⟩
  else if url = "https://api.mercadolibre.com/sites/MLA" then .ok ⟨status, bodySite "MLA" "ARS"⟩
  else if url = "https://api.mercadolibre.com/sites/MLB" then .ok ⟨status, bodySite "MLB" "BRL"⟩
  else if url = "https://api.mercadolibre.com/currency_conversions/search?from=ARS&to=USD" then
    .ok ⟨status, "\x7b\"ratio\":0.0025\x7d"⟩
  else if url = "https://api.mercadolibre.com/currency_conversions/search?from=BRL&to=USD" then
    .ok ⟨status, "\x7b\"ratio\":0.20\x7d"⟩
  else .error ⟨"no such host"⟩

/-- Two sites: MLA (ARS, ratio 0.0025) and MLB (BRL, ratio 0.20). -/
def sampleTwoSites : Upstream where
  Get := fun _ url => sampleGetAB 200 url
  UnmarshalSites := sampleUnmarshalSites
  UnmarshalSite := sampleUnmarshalSite
  UnmarshalConversion := sampleUnmarshalConversion

/-- The same two sites, every answer with status 500 and the usual body. -/
def sampleStatus500 : Upstream where
  Get := fun _ url => sampleGetAB 500 url
  UnmarshalSites := sampleUnmarshalSites
  UnmarshalSite := sampleUnmarshalSite
  UnmarshalConversion := sampleUnmarshalConversion

/-- The site list answers with status 500 and an error body. -/
def sampleSiteList500 : Upstream where
  Get := fun _ url =>
    if url = "https://api.mercadolibre.com/sites" then .ok ⟨500, bodyFailure⟩
    else sampleGetAB 200 url
  UnmarshalSites := sampleUnmarshalSites
  UnmarshalSite := sampleUnmarshalSite
  UnmarshalConversion := sampleUnmarshalConversion

/-- The site list cannot be reached. -/
def sampleSiteListDown : Upstream where
  Get := fun _ url =>
    if url = "https://api.mercadolibre.com/sites" then .error ⟨"connection refused"⟩
    else sampleGetAB 200 url
  UnmarshalSites := sampleUnmarshalSites
  UnmarshalSite := sampleUnmarshalSite
  UnmarshalConversion := sampleUnmarshalConversion

/-- Two sites; the site detail of MLA cannot be reached. -/
def sampleOneFails : Upstream where
  Get := fun _ url =>
    if url = "https://api.mercadolibre.com/sites/MLA" then .error ⟨"connection reset by peer"⟩
    else sampleGetAB 200 url
  UnmarshalSites := sampleUnmarshalSites
  UnmarshalSite := sampleUnmarshalSite
  UnmarshalConversion := sampleUnmarshalConversion

/-- The two sites MLA and MLB; the answer to the conversion from ARS carries the
fields `from: EUR` and `to: GBP`. -/
def sampleForeignFields : Upstream where
  Get := fun _ url =>
    if url = "https://api.mercadolibre.com/currency_conversions/search?from=ARS&to=USD" then
      .ok ⟨200, bodyForeignFields⟩
    else sampleGetAB 200 url
  UnmarshalSites := sampleUnmarshalSites
  UnmarshalSite := sampleUnmarshalSite
  UnmarshalConversion := sampleUnmarshalConversion

/-- Ecuador and El Salvador share the currency USD; every caller gets ratio 1. -/
def sampleSharedStable : Upstream where
  Get := fun _ url =>
    if url = "https://api.mercadolibre.com/sites" then .ok ⟨200, bodySitesUSD⟩
    else if url = "https://api.mercadolibre.com/sites/MEC" then .ok ⟨200, bodySite "MEC" "USD"⟩
    else if url = "https://api.mercadolibre.com/sites/MSV" then .ok ⟨200, bodySite "MSV" "USD"⟩
    else if url = "https://api.mercadolibre.com/currency_conversions/search?from=USD&to=USD" then
      .ok ⟨200, "\x7b\"ratio\":1\x7d"⟩
    else .error ⟨"no such host"⟩
  UnmarshalSites := sampleUnmarshalSites
  UnmarshalSite := sampleUnmarshalSite
  UnmarshalConversion := sampleUnmarshalConversion

/-- Ecuador and El Salvador share the currency USD; the resolution of the second
site is answered with another ratio than the resolution of the first. -/
def sampleSharedDrift : Upstream where
  Get := fun c url =>
    if url = "https://api.mercadolibre.com/sites" then .ok ⟨200, bodySitesUSD⟩
    else if url = "https://api.mercadolibre.com/sites/MEC" then .ok ⟨200, bodySite "MEC" "USD"⟩
    else if url = "https://api.mercadolibre.com/sites/MSV" then .ok ⟨200, bodySite "MSV" "USD"⟩
    else if url = "https://api.mercadolibre.com/currency_conversions/search?from=USD&to=USD" then
      if c = Caller.resolver 1 then .ok ⟨200, "\x7b\"ratio\":1.01\x7d"⟩
      else .ok ⟨200, "\x7b\"ratio\":1\x7d"⟩
    else .error ⟨"no such host"⟩
  UnmarshalSites := sampleUnmarshalSites
  UnmarshalSite := sampleUnmarshalSite
  UnmarshalConversion := sampleUnmarshalConversion

/-- The state in which `GetAllCurrencies` returns on `sampleTwoSites` under the in-order
schedule. -/
def sampleTwoSitesReturned : concurrent.State :=
  { main := concurrent.MainPc.returned (.ok [("ARS", 0.0025), ("BRL", 0.20)]),
    sites := [⟨"MLA", "Argentina"⟩, ⟨"MLB", "Brasil"⟩],
    handler := concurrent.HandlerPc.receive 2,
    loop := 2,
    procs := [concurrent.ProcessPc.returned, concurrent.ProcessPc.returned],
    wg := 0,
    closed := true,
    result := [("ARS", 0.0025), ("BRL", 0.20)],
    requests := ["https://api.mercadolibre.com/sites", "https://api.mercadolibre.com/sites/MLA",
      "https://api.mercadolibre.com/currency_conversions/search?from=ARS&to=USD",
      "https://api.mercadolibre.com/sites/MLB",
      "https://api.mercadolibre.com/currency_conversions/search?from=BRL&to=USD"],
    arrivals := [0, 1],
    adds := 2,
    dones := 2 }

end ApiFetch

namespace ApiFetch
open concurrent

/-! ## The result map -/

theorem Table.lookup_assign (m : Table) (k k' : String) (v : Float64) :
    Table.lookup (Table.assign m k v) k' = if k = k' then some v else Table.lookup m k' := by
  induction m with
  | nil => simp [Table.assign, Table.lookup]
  | cons e rest ih =>
    obtain ⟨a, b⟩ := e
    by_cases h : a = k
    · subst h
      by_cases h' : a = k' <;> simp [Table.assign, Table.lookup, h']
    · by_cases h' : a = k'
      · subst h'
        simp [Table.assign, Table.lookup, h, Ne.symm h]
      · simp [Table.assign, Table.lookup, h, h', ih]

theorem Table.mem_keys_iff (m : Table) (k : String) :
    k ∈ Table.keys m ↔ ∃ v, Table.lookup m k = some v := by
  induction m with
  | nil => simp [Table.keys, Table.lookup]
  | cons e rest ih =>
    obtain ⟨a, b⟩ := e
    by_cases h : a = k
    · simp [Table.keys, Table.lookup, h]
    · have ih' : k ∈ List.map Prod.fst rest ↔ ∃ v, Table.lookup rest k = some v := ih
      simp [Table.keys, Table.lookup, h, Ne.symm h, ih']

theorem Table.mem_keys_assign (m : Table) (k k' : String) (v : Float64) :
    k' ∈ Table.keys (Table.assign m k v) ↔ k' = k ∨ k' ∈ Table.keys m := by
  rw [Table.mem_keys_iff, Table.mem_keys_iff, Table.lookup_assign]
  by_cases h : k = k'
  · simp [h]
  · simp [h, Ne.symm h]

theorem Table.keys_assign_nodup (m : Table) (k : String) (v : Float64)
    (h : (Table.keys m).Nodup) : (Table.keys (Table.assign m k v)).Nodup := by
  induction m with
  | nil => simp [Table.assign, Table.keys]
  | cons e rest ih =>
    obtain ⟨a, b⟩ := e
    have hn : a ∉ Table.keys rest ∧ (Table.keys rest).Nodup := by
      simpa [Table.keys] using h
    by_cases ha : a = k
    · subst ha
      simpa [Table.assign, Table.keys] using h
    · have h1 : a ∉ Table.keys (Table.assign rest k v) := by
        rw [Table.mem_keys_assign]
        simp [ha, hn.1]
      have h2 := ih hn.2
      simp only [Table.assign, ha, if_false]
      simp only [Table.keys, List.map_cons, List.nodup_cons]
      exact ⟨h1, h2⟩


namespace concurrent

/-! ## `HandleResults` over the received values -/

theorem HandleResults.collect_append (m : Table) (l : List (Option CurrencyConversion))
    (x : Option CurrencyConversion) :
    HandleResults.collect m (l ++ [x]) = HandleResults.store (HandleResults.collect m l) x := by
  simp [HandleResults.collect, List.foldl_append]

theorem HandleResults.lookup_store (m : Table) (x : Option CurrencyConversion) (c : String) :
    Table.lookup (HandleResults.store m x) c =
      match x with
      | some conv => if conv.From = c then some conv.Ratio else Table.lookup m c
      | none => Table.lookup m c := by
  cases x with
  | none => rfl
  | some conv => simp [HandleResults.store, Table.lookup_assign]

theorem lastRatioFrom_append (c : String) (l : List (Option CurrencyConversion))
    (x : Option CurrencyConversion) :
    lastRatioFrom c (l ++ [x]) =
      match x with
      | some conv => if conv.From = c then some conv.Ratio else lastRatioFrom c l
      | none => lastRatioFrom c l := by
  cases x with
  | none => simp [lastRatioFrom]
  | some conv =>
    by_cases h : conv.From = c <;> simp [lastRatioFrom, List.find?, h]

theorem HandleResults.lookup_collect (m : Table) (l : List (Option CurrencyConversion))
    (c : String) :
    Table.lookup (HandleResults.collect m l) c =
      match lastRatioFrom c l with
      | some r => some r
      | none => Table.lookup m c := by
  induction l using List.reverseRecOn with
  | nil => simp [HandleResults.collect, lastRatioFrom]
  | append_singleton l x ih =>
    rw [HandleResults.collect_append, HandleResults.lookup_store, lastRatioFrom_append]
    cases x with
    | none => simpa using ih
    | some conv =>
      by_cases h : conv.From = c
      · simp [h]
      · simpa [h] using ih

theorem lastRatioFrom_eq_some_iff_exists (c : String) (l : List (Option CurrencyConversion)) :
    (∃ r, lastRatioFrom c l = some r) ↔ ∃ conv, some conv ∈ l ∧ conv.From = c := by
  induction l using List.reverseRecOn with
  | nil => simp [lastRatioFrom]
  | append_singleton l x ih =>
    rw [lastRatioFrom_append]
    cases x with
    | none => simpa using ih
    | some conv =>
      by_cases h : conv.From = c
      · simp only [h, if_true]
        constructor
        · intro _
          exact ⟨conv, by simp, h⟩
        · intro _
          exact ⟨_, rfl⟩
      · simp only [h, if_false]
        rw [ih]
        constructor
        · rintro ⟨d, hd, hc⟩
          exact ⟨d, by simp [hd], hc⟩
        · rintro ⟨d, hd, hc⟩
          simp only [List.mem_append, List.mem_singleton] at hd
          rcases hd with hd | hd
          · exact ⟨d, hd, hc⟩
          · exfalso
            cases hd
            exact h hc

/-- The ratio found by `lastRatioFrom` is the ratio of one of the values with that `From`. -/
theorem lastRatioFrom_mem (c : String) (l : List (Option CurrencyConversion)) (r : Float64)
    (h : lastRatioFrom c l = some r) : ∃ conv, some conv ∈ l ∧ conv.From = c ∧ conv.Ratio = r := by
  induction l using List.reverseRecOn with
  | nil => simp [lastRatioFrom] at h
  | append_singleton l x ih =>
    rw [lastRatioFrom_append] at h
    cases x with
    | none =>
      obtain ⟨d, hd, hc⟩ := ih h
      exact ⟨d, by simp [hd], hc⟩
    | some conv =>
      by_cases hf : conv.From = c
      · simp only [hf, if_true, Option.some.injEq] at h
        exact ⟨conv, by simp, hf, h⟩
      · simp only [hf, if_false] at h
        obtain ⟨d, hd, hc⟩ := ih h
        exact ⟨d, by simp [hd], hc⟩

theorem HandleResults.collect_keys_nodup (m : Table) (l : List (Option CurrencyConversion))
    (h : (Table.keys m).Nodup) : (Table.keys (HandleResults.collect m l)).Nodup := by
  induction l using List.reverseRecOn with
  | nil => simpa [HandleResults.collect] using h
  | append_singleton l x ih =>
    rw [HandleResults.collect_append]
    cases x with
    | none => simpa [HandleResults.store] using ih
    | some conv => exact Table.keys_assign_nodup _ _ _ ih

theorem HandleResults.mem_keys_collect (l : List (Option CurrencyConversion)) (c : String) :
    c ∈ Table.keys (HandleResults.collect [] l) ↔ ∃ conv, some conv ∈ l ∧ conv.From = c := by
  rw [Table.mem_keys_iff, ← lastRatioFrom_eq_some_iff_exists]
  constructor
  · rintro ⟨v, hv⟩
    rw [HandleResults.lookup_collect] at hv
    cases hl : lastRatioFrom c l with
    | none => simp [hl, Table.lookup] at hv
    | some r => exact ⟨r, rfl⟩
  · rintro ⟨r, hr⟩
    exact ⟨r, by rw [HandleResults.lookup_collect, hr]⟩

end concurrent
end ApiFetch

namespace ApiFetch
namespace concurrent

/-! ## The invariant of the concurrent run -/

theorem GetAllSites_requests (w : Upstream) : (GetAllSites w).2 = [SITES_ALL_URL] := by
  unfold GetAllSites
  split
  · rfl
  · split <;> rfl

theorem Inv.init (w : Upstream) : Inv w State.init where
  main_ok := by simp [State.init, MainOk, Idle]
  handler_ok := by simp [State.init, HandlerOk]
  procs_ok := by simp [State.init]
  wg_eq := by simp [State.init]
  arrivals_nodup := by simp [State.init]
  arrivals_lt := by simp [State.init]

/-- A duplicate-free list of numbers below `n` with at least `n` elements holds every number
below `n`. -/
theorem mem_of_nodup_of_length_ge (l : List Nat) (n : Nat) (hn : l.Nodup)
    (hlt : ∀ k ∈ l, k < n) (hlen : n ≤ l.length) (k : Nat) (hk : k < n) : k ∈ l := by
  have hsub : l.toFinset ⊆ Finset.range n := by
    intro x hx
    simp only [List.mem_toFinset] at hx
    simpa using hlt x hx
  have hcard : (Finset.range n).card ≤ l.toFinset.card := by
    rw [List.toFinset_card_of_nodup hn]
    simpa using hlen
  have heq := Finset.eq_of_subset_of_card_le hsub hcard
  have : k ∈ l.toFinset := by
    rw [heq]
    simpa using hk
  simpa using this

theorem length_le_of_nodup_of_lt (l : List Nat) (n : Nat) (hn : l.Nodup)
    (hlt : ∀ k ∈ l, k < n) : l.length ≤ n := by
  have hsub : l.toFinset ⊆ Finset.range n := by
    intro x hx
    simp only [List.mem_toFinset] at hx
    simpa using hlt x hx
  have := Finset.card_le_card hsub
  rw [List.toFinset_card_of_nodup hn] at this
  simpa using this

/-- The function `HandleResults` never counts more values than it received. -/
theorem Inv.dones_le (w : Upstream) (s : State) (h : Inv w s) : s.dones ≤ s.arrivals.length := by
  have hh := h.handler_ok
  cases hs : s.handler with
  | notStarted => rw [hs] at hh; simp [HandlerOk] at hh; omega
  | entry => rw [hs] at hh; simp [HandlerOk] at hh; omega
  | receive i => rw [hs] at hh; simp [HandlerOk] at hh; omega
  | store i conv =>
    rw [hs] at hh
    obtain ⟨pre, k, h1, h2, _, h4, _⟩ := hh
    simp [h1]; omega
  | wgDone i => rw [hs] at hh; simp [HandlerOk] at hh; omega
  | returned => rw [hs] at hh; simp [HandlerOk] at hh; omega

/-- Every launched goroutine was preceded by a `wg.Add(1)`. -/
theorem Inv.procs_le_adds (w : Upstream) (s : State) (h : Inv w s) :
    s.procs.length ≤ s.adds ∧ s.procs.length ≤ s.sites.length := by
  have hm := h.main_ok
  cases hs : s.main with
  | getAllSites => rw [hs] at hm; simp [MainOk, Idle] at hm; simp [hm]
  | goHandleResults => rw [hs] at hm; simp [MainOk, Idle] at hm; simp [hm]
  | wgAdd i => rw [hs] at hm; simp [MainOk] at hm; omega
  | goProcess i => rw [hs] at hm; simp [MainOk] at hm; omega
  | wgWait => rw [hs] at hm; simp [MainOk] at hm; omega
  | returned r =>
    rw [hs] at hm
    cases r with
    | ok t => simp [MainOk] at hm; omega
    | error e => simp [MainOk, Idle] at hm; simp [hm]

/-- The WaitGroup counter is never negative. -/
theorem Inv.wg_nonneg (w : Upstream) (s : State) (h : Inv w s) : 0 ≤ s.wg := by
  have h1 := h.dones_le
  have h2 := length_le_of_nodup_of_lt _ _ h.arrivals_nodup h.arrivals_lt
  have h3 := (h.procs_le_adds).1
  rw [h.wg_eq]
  omega

/-- Once the channel is closed every value has been received and counted. -/
theorem Inv.closed_all (w : Upstream) (s : State) (h : Inv w s) (hc : s.closed = true) :
    s.dones = s.sites.length ∧ s.adds = s.sites.length ∧
      s.procs.length = s.sites.length ∧ s.loop = s.sites.length := by
  have hm := h.main_ok
  have hw := h.wg_eq
  cases hs : s.main with
  | getAllSites => rw [hs] at hm; simp [MainOk, Idle, hc] at hm
  | goHandleResults => rw [hs] at hm; simp [MainOk, Idle, hc] at hm
  | wgAdd i => rw [hs] at hm; simp [MainOk, hc] at hm
  | goProcess i => rw [hs] at hm; simp [MainOk, hc] at hm
  | wgWait => rw [hs] at hm; simp [MainOk, hc] at hm
  | returned r =>
    rw [hs] at hm
    cases r with
    | ok t =>
      simp only [MainOk, Started] at hm
      obtain ⟨⟨_, _, h3⟩, h4, h5, _, h7, _⟩ := hm
      refine ⟨?_, h5, h4, h3⟩
      omega
    | error e => simp [MainOk, Idle, hc] at hm

end concurrent
end ApiFetch

namespace ApiFetch
namespace concurrent

theorem Inv.stepMain (w : Upstream) (s s' : State) (h : Inv w s)
    (hs : stepMain w s = some s') : Inv w s' := by
  obtain ⟨hm, hh, hp, hw, hn, hl⟩ := h
  unfold concurrent.stepMain at hs
  split at hs
  · -- line 56
    rename_i hpc
    rw [hpc] at hm
    simp only [MainOk, Idle] at hm
    obtain ⟨⟨h1, h2, h3, h4, h5, h6, h7, h8⟩, h9, h10⟩ := hm
    have hreq := GetAllSites_requests w
    split at hs
    · rename_i err reqs hg
      cases hs
      rw [hg] at hreq
      simp only at hreq
      constructor <;> simp_all [MainOk, HandlerOk, Idle]
    · rename_i sites reqs hg
      cases hs
      rw [hg] at hreq
      simp only at hreq
      constructor <;> simp_all [MainOk, HandlerOk, Idle]
  · -- line 76
    rename_i hpc
    rw [hpc] at hm
    simp only [MainOk, Idle] at hm
    obtain ⟨⟨h1, h2, h3, h4, h5, h6, h7, h8⟩, h9, h10⟩ := hm
    cases hs
    constructor <;> simp_all [MainOk, HandlerOk, Idle, Started]
  · -- lines 78-80
    rename_i i hpc
    rw [hpc] at hm
    simp only [MainOk, Started] at hm
    obtain ⟨⟨h1, h2, h3⟩, h4, h5, h6, h7⟩ := hm
    split at hs
    · rename_i hi
      cases hs
      constructor
      · simp only [MainOk, Started]
        exact ⟨⟨h1, h2, h3⟩, hi, h5, by omega, h7⟩
      · cases hh' : s.handler <;> simp_all [HandlerOk]
      · intro k p hk
        have := hp k p hk
        cases p <;> simp_all [ProcOk]
      · simp only [hw]; push_cast; ring
      · exact hn
      · exact hl
    · rename_i hi
      cases hs
      constructor
      · simp only [MainOk, Started]
        exact ⟨⟨h1, h2, h3⟩, by omega, by omega, h7⟩
      · cases hh' : s.handler <;> simp_all [HandlerOk]
      · intro k p hk
        have := hp k p hk
        cases p <;> simp_all [ProcOk]
      · exact hw
      · exact hn
      · exact hl
  · -- line 82
    rename_i i hpc
    rw [hpc] at hm
    simp only [MainOk, Started] at hm
    obtain ⟨⟨h1, h2, h3⟩, h4, h5, h6, h7⟩ := hm
    split at hs
    · rename_i site hsite
      cases hs
      constructor
      · simp only [MainOk, Started, List.length_append, List.length_singleton]
        exact ⟨⟨h1, h2, h3⟩, by omega, by omega, by omega, h7⟩
      · cases hh' : s.handler <;> simp_all [HandlerOk]
      · intro k p hk
        simp only at hk
        by_cases hlt : k < s.procs.length
        · rw [List.getElem?_append_left hlt] at hk
          have := hp k p hk
          cases p <;> simp_all [ProcOk]
        · have hge : s.procs.length ≤ k := by omega
          rw [List.getElem?_append_right hge] at hk
          have hk0 : k = s.procs.length := by
            by_contra hne
            have : k - s.procs.length ≠ 0 := by omega
            obtain ⟨j, hj⟩ := Nat.exists_eq_succ_of_ne_zero this
            rw [hj] at hk
            simp at hk
          subst hk0
          simp only [Nat.sub_self, List.getElem?_cons_zero, Option.some.injEq] at hk
          subst hk
          simp only [ProcOk]
          refine ⟨?_, site, ?_, rfl⟩
          · intro hmem
            exact absurd (hl _ hmem) (by omega)
          · rw [h5]; exact hsite
      · exact hw
      · exact hn
      · intro k hk
        have := hl k hk
        simp only [List.length_append, List.length_singleton]
        omega
    · cases hs
  · -- line 86
    rename_i hpc
    rw [hpc] at hm
    simp only [MainOk, Started] at hm
    obtain ⟨⟨h1, h2, h3⟩, h4, h5, h6⟩ := hm
    split at hs
    · rename_i hz
      cases hs
      constructor
      · simp only [MainOk, Started]
        exact ⟨⟨h1, h2, h3⟩, h4, h5, trivial, hz, trivial⟩
      · cases hh' : s.handler <;> simp_all [HandlerOk]
      · intro k p hk
        have := hp k p hk
        cases p <;> simp_all [ProcOk]
      · exact hw
      · exact hn
      · exact hl
    · cases hs
  · cases hs

end concurrent
end ApiFetch

namespace ApiFetch
namespace concurrent

theorem Inv.stepHandler (w : Upstream) (s s' : State) (h : Inv w s)
    (hs : stepHandler s = some s') : Inv w s' := by
  have hclosed := h.closed_all
  have hdl := h.dones_le
  obtain ⟨hm, hh, hp, hw, hn, hl⟩ := h
  unfold concurrent.stepHandler at hs
  split at hs
  · cases hs
  · -- line 94
    rename_i hpc
    rw [hpc] at hh
    simp only [HandlerOk] at hh
    obtain ⟨h1, h2, h3⟩ := hh
    split at hs
    · rename_i hz
      cases hs
      constructor
      · cases hm' : s.main with
        | returned r => cases r <;> simp_all [MainOk, Idle, Started]
        | _ => simp_all [MainOk, Idle, Started]
      · simp [HandlerOk, h1, h2, h3, hz, HandleResults.collect]
      · intro k p hk
        have := hp k p hk
        cases p <;> simp_all [ProcOk]
      · exact hw
      · exact hn
      · exact hl
    · rename_i hz
      cases hs
      constructor
      · cases hm' : s.main with
        | returned r => cases r <;> simp_all [MainOk, Idle, Started]
        | _ => simp_all [MainOk, Idle, Started]
      · simp [HandlerOk, h1, h2, h3, HandleResults.collect]
      · intro k p hk
        have := hp k p hk
        cases p <;> simp_all [ProcOk]
      · exact hw
      · exact hn
      · exact hl
  · -- lines 100-102
    rename_i i hpc
    rw [hpc] at hh
    simp only [HandlerOk] at hh
    obtain ⟨h1, h2, h3, h4⟩ := hh
    split at hs
    · rename_i hi
      split at hs
      · rename_i hc
        exfalso
        have := hclosed hc
        omega
      · cases hs
    · rename_i hi
      cases hs
      constructor
      · cases hm' : s.main with
        | returned r => cases r <;> simp_all [MainOk, Idle, Started]
        | _ => simp_all [MainOk, Idle, Started]
      · simp only [HandlerOk]
        exact ⟨by omega, by omega, h4⟩
      · intro k p hk
        have := hp k p hk
        cases p <;> simp_all [ProcOk]
      · exact hw
      · exact hn
      · exact hl
  · -- lines 103-106
    rename_i i conv hpc
    rw [hpc] at hh
    simp only [HandlerOk] at hh
    obtain ⟨pre, k, h1, h2, h3, h4, h5, h6⟩ := hh
    cases hs
    constructor
    · cases hm' : s.main with
      | returned r => cases r <;> simp_all [MainOk, Idle, Started]
      | _ => simp_all [MainOk, Idle, Started]
    · simp only [HandlerOk]
      refine ⟨by simp [h1, h2], h4, h5, ?_⟩
      rw [h1, List.map_append, List.map_singleton, HandleResults.collect_append, h6, h3]
    · intro k p hk
      have := hp k p hk
      cases p <;> simp_all [ProcOk]
    · exact hw
    · exact hn
    · exact hl
  · -- line 108
    rename_i i hpc
    rw [hpc] at hh
    simp only [HandlerOk] at hh
    obtain ⟨h1, h2, h3, h4⟩ := hh
    cases hs
    constructor
    · cases hm' : s.main with
      | returned r =>
        cases r with
        | error e => simp_all [MainOk, Idle, Started]
        | ok t =>
          exfalso
          rw [hm'] at hm
          simp only [MainOk, Started] at hm
          obtain ⟨⟨_, _, g3⟩, g4, g5, g6, g7, _⟩ := hm
          omega
      | _ => simp_all [MainOk, Idle, Started]
    · simp only [HandlerOk]
      exact ⟨h1, by omega, by omega, h4⟩
    · intro k p hk
      have := hp k p hk
      cases p <;> simp_all [ProcOk]
    · simp only [hw]; push_cast; ring
    · exact hn
    · exact hl
  · cases hs

end concurrent
end ApiFetch

namespace ApiFetch
namespace concurrent

theorem MainOk.congr (w : Upstream) (s t : State) (h : MainOk w s s.main)
    (h1 : t.main = s.main) (h2 : t.sites = s.sites) (h3 : t.handler = s.handler)
    (h4 : t.loop = s.loop) (h5 : t.procs.length = s.procs.length) (h6 : t.wg = s.wg)
    (h7 : t.closed = s.closed) (h8 : t.result = s.result) (h9 : t.adds = s.adds)
    (hstart : s.handler ≠ HandlerPc.notStarted) : MainOk w t t.main := by
  rw [h1]
  cases hs : s.main with
  | getAllSites => rw [hs] at h; simp only [MainOk, Idle] at h; exact absurd h.1.1 hstart
  | goHandleResults => rw [hs] at h; simp only [MainOk, Idle] at h; exact absurd h.1.1 hstart
  | wgAdd i => rw [hs] at h; simp only [MainOk, Started] at h ⊢; simp only [h2, h3, h4, h5, h7, h9]; exact h
  | goProcess i => rw [hs] at h; simp only [MainOk, Started] at h ⊢; simp only [h2, h3, h4, h5, h7, h9]; exact h
  | wgWait => rw [hs] at h; simp only [MainOk, Started] at h ⊢; simp only [h2, h3, h4, h5, h7, h9]; exact h
  | returned r =>
    rw [hs] at h
    cases r with
    | ok t' => simp only [MainOk, Started] at h ⊢; simp only [h2, h3, h4, h5, h6, h7, h8, h9]; exact h
    | error e => simp only [MainOk, Idle] at h; exact absurd h.1.1 hstart

theorem Inv.procs_started (w : Upstream) (s : State) (h : Inv w s) (k : Nat) (p : ProcessPc)
    (hk : s.procs[k]? = some p) : s.handler ≠ HandlerPc.notStarted := by
  have hm := h.main_ok
  have hlen : k < s.procs.length := by
    rcases Nat.lt_or_ge k s.procs.length with hlt | hge
    · exact hlt
    · rw [List.getElem?_eq_none hge] at hk
      cases hk
  cases hs : s.main with
  | getAllSites => rw [hs] at hm; simp only [MainOk, Idle] at hm; rw [hm.1.2.1] at hlen; simp at hlen
  | goHandleResults => rw [hs] at hm; simp only [MainOk, Idle] at hm; rw [hm.1.2.1] at hlen; simp at hlen
  | wgAdd i => rw [hs] at hm; simp only [MainOk, Started] at hm; exact hm.1.2.1
  | goProcess i => rw [hs] at hm; simp only [MainOk, Started] at hm; exact hm.1.2.1
  | wgWait => rw [hs] at hm; simp only [MainOk, Started] at hm; exact hm.1.2.1
  | returned r =>
    rw [hs] at hm
    cases r with
    | ok t' => simp only [MainOk, Started] at hm; exact hm.1.2.1
    | error e => simp only [MainOk, Idle] at hm; rw [hm.1.2.1] at hlen; simp at hlen

theorem getElem?_set_some {α : Type} (l : List α) (k j : Nat) (a p : α)
    (h : (l.set k a)[j]? = some p) : (j = k ∧ p = a) ∨ (j ≠ k ∧ l[j]? = some p) := by
  by_cases hjk : j = k
  · subst hjk
    left
    refine ⟨rfl, ?_⟩
    rcases Nat.lt_or_ge j l.length with hlt | hge
    · rw [List.getElem?_set_self hlt] at h
      cases h
      rfl
    · rw [List.getElem?_eq_none (by simpa using hge)] at h
      cases h
  · right
    refine ⟨hjk, ?_⟩
    rw [List.getElem?_set_ne (Ne.symm hjk)] at h
    exact h

theorem Inv.stepProcess (w : Upstream) (s s' : State) (k : Nat) (h : Inv w s)
    (hs : stepProcess w s k = some s') : Inv w s' := by
  have hclosed := h.closed_all
  have hdl := h.dones_le
  have hstarted := h.procs_started
  obtain ⟨hm, hh, hp, hw, hn, hl⟩ := h
  unfold concurrent.stepProcess at hs
  split at hs
  · -- line 115
    rename_i siteId hpk
    have hst := hstarted k _ hpk
    have hk := hp k _ hpk
    simp only [ProcOk] at hk
    obtain ⟨hk1, site, hk2, hk3⟩ := hk
    cases hs
    constructor
    · exact MainOk.congr w s _ hm rfl rfl rfl rfl (by simp) rfl rfl rfl rfl hst
    · cases hh' : s.handler <;> simp_all [HandlerOk]
    · intro j p hj
      rcases getElem?_set_some _ _ _ _ _ hj with ⟨h1, h2⟩ | ⟨h1, h2⟩
      · subst h1 h2
        simp only [ProcOk]
        refine ⟨hk1, ?_⟩
        simp only [message, hk2, hk3]
      · have := hp j p h2
        cases p <;> simp_all [ProcOk]
    · exact hw
    · exact hn
    · intro j hj
      simpa using hl j hj
  · -- lines 117 / 120
    rename_i conv hpk
    have hst := hstarted k _ hpk
    have hk := hp k _ hpk
    simp only [ProcOk] at hk
    obtain ⟨hk1, hk2⟩ := hk
    have hlen : k < s.procs.length := by
      rcases Nat.lt_or_ge k s.procs.length with hlt | hge
      · exact hlt
      · rw [List.getElem?_eq_none hge] at hpk
        cases hpk
    split at hs
    · rename_i hc
      exfalso
      obtain ⟨g1, g2, g3, g4⟩ := hclosed hc
      exact hk1 (mem_of_nodup_of_length_ge _ _ hn hl (by omega) k hlen)
    · rename_i hc
      split at hs
      · rename_i i hpc
        split at hs
        · rename_i hi
          rw [hpc] at hh
          simp only [HandlerOk] at hh
          obtain ⟨h1, h2, h3, h4⟩ := hh
          cases hs
          constructor
          · cases hm' : s.main with
            | returned r =>
              cases r with
              | error e => simp_all [MainOk, Idle, Started]
              | ok t => rw [hm'] at hm; simp only [MainOk] at hm; simp_all
            | _ => simp_all [MainOk, Idle, Started]
          · simp only [HandlerOk]
            exact ⟨s.arrivals, k, rfl, h1, hk2, h2, hi, h4⟩
          · intro j p hj
            rcases getElem?_set_some _ _ _ _ _ hj with ⟨g1, g2⟩ | ⟨g1, g2⟩
            · subst g1 g2
              simp [ProcOk]
            · have := hp j p g2
              cases p <;> simp_all [ProcOk]
          · exact hw
          · simp only [List.nodup_append, List.nodup_singleton, List.disjoint_singleton]
            exact ⟨hn, trivial, hk1⟩
          · intro j hj
            simp only [List.mem_append, List.mem_singleton] at hj
            simp only [List.length_set]
            rcases hj with hj | hj
            · exact hl j hj
            · rw [hj]; exact hlen
        · cases hs
      · cases hs
  · cases hs

theorem Inv.step (w : Upstream) (s s' : State) (a : Actor) (h : Inv w s)
    (hs : step w s a = some s') : Inv w s' := by
  cases a with
  | main => exact Inv.stepMain w s s' h hs
  | handler => exact Inv.stepHandler w s s' h hs
  | process k => exact Inv.stepProcess w s s' k h hs

theorem Inv.exec (w : Upstream) (sched : List Actor) (s s' : State) (h : Inv w s)
    (hs : exec w sched s = some s') : Inv w s' := by
  induction sched generalizing s with
  | nil =>
    simp only [concurrent.exec, Option.some.injEq] at hs
    subst hs
    exact h
  | cons a rest ih =>
    simp only [concurrent.exec] at hs
    cases hst : concurrent.step w s a with
    | none => rw [hst] at hs; cases hs
    | some t =>
      rw [hst] at hs
      exact ih t (Inv.step w s t a h hst) hs

/-- Every reachable state satisfies the invariant. -/
theorem Reachable.inv (w : Upstream) (s : State) (h : Reachable w s) : Inv w s := by
  obtain ⟨sched, hs⟩ := h
  exact Inv.exec w sched _ s (Inv.init w) hs

end concurrent
end ApiFetch

namespace ApiFetch
namespace concurrent

/-! ## The state in which `GetAllCurrencies` returns a table -/

theorem perm_range_of_nodup (l : List Nat) (n : Nat) (hn : l.Nodup)
    (hlt : ∀ k ∈ l, k < n) (hlen : n ≤ l.length) : l.Perm (List.range n) := by
  apply List.perm_of_nodup_nodup_toFinset_eq hn (List.nodup_range n)
  ext k
  simp only [List.mem_toFinset, List.mem_range]
  exact ⟨hlt k, mem_of_nodup_of_length_ge l n hn hlt hlen k⟩

/-- When `GetAllCurrencies` has returned a table, `HandleResults` has received one value
from every goroutine, has stored them all and has counted them all. -/
theorem Inv.returned_ok (w : Upstream) (s : State) (t : Table) (h : Inv w s)
    (hr : s.main = MainPc.returned (.ok t)) :
    (GetAllSites w).1 = .ok s.sites ∧
    s.procs.length = s.sites.length ∧ s.adds = s.sites.length ∧
    s.dones = s.sites.length ∧ s.arrivals.length = s.sites.length ∧
    s.arrivals.Perm (List.range s.sites.length) ∧
    s.result = HandleResults.collect [] (s.arrivals.map (message w s.sites)) ∧
    t = s.result ∧
    (s.handler = HandlerPc.receive s.sites.length ∨ s.handler = HandlerPc.returned ∨
      (s.handler = HandlerPc.entry ∧ s.sites.length = 0)) := by
  have hm := h.main_ok
  rw [hr] at hm
  simp only [MainOk, Started] at hm
  obtain ⟨⟨g1, g2, g3⟩, g4, g5, g6, g7, g8⟩ := hm
  have hw := h.wg_eq
  have hd : s.dones = s.sites.length := by omega
  have hle := h.dones_le
  have hle2 := length_le_of_nodup_of_lt _ _ h.arrivals_nodup h.arrivals_lt
  have hal : s.arrivals.length = s.sites.length := by omega
  have hperm : s.arrivals.Perm (List.range s.sites.length) :=
    perm_range_of_nodup _ _ h.arrivals_nodup (by rw [← g4]; exact h.arrivals_lt) (by omega)
  have hh := h.handler_ok
  refine ⟨g1, g4, g5, hd, hal, hperm, ?_, g8, ?_⟩
  · cases hs : s.handler with
    | notStarted => exact absurd hs g2
    | entry =>
      rw [hs] at hh
      simp only [HandlerOk] at hh
      simp [hh.1, hh.2.2, HandleResults.collect]
    | receive i => rw [hs] at hh; simp only [HandlerOk] at hh; exact hh.2.2.2
    | store i conv =>
      rw [hs] at hh
      obtain ⟨pre, k, h1, h2, _, h4, h5, _⟩ := hh
      omega
    | wgDone i => rw [hs] at hh; simp only [HandlerOk] at hh; omega
    | returned => rw [hs] at hh; simp only [HandlerOk] at hh; exact hh.2.2
  · cases hs : s.handler with
    | notStarted => exact absurd hs g2
    | entry =>
      rw [hs] at hh
      simp only [HandlerOk] at hh
      right; right
      exact ⟨rfl, by omega⟩
    | receive i =>
      rw [hs] at hh
      simp only [HandlerOk] at hh
      left
      have : i = s.sites.length := by omega
      rw [this]
    | store i conv =>
      rw [hs] at hh
      obtain ⟨pre, k, h1, h2, _, h4, h5, _⟩ := hh
      omega
    | wgDone i => rw [hs] at hh; simp only [HandlerOk] at hh; omega
    | returned => right; left; rfl

/-- When `HandleResults` has returned, it has received and counted `loop` values. -/
theorem Inv.handler_returned (w : Upstream) (s : State) (h : Inv w s)
    (hr : s.handler = HandlerPc.returned) :
    s.loop = s.sites.length ∧ s.arrivals.length = s.sites.length ∧
      s.dones = s.sites.length ∧
      s.result = HandleResults.collect [] (s.arrivals.map (message w s.sites)) := by
  have hh := h.handler_ok
  rw [hr] at hh
  simp only [HandlerOk] at hh
  have hm := h.main_ok
  have hl : s.loop = s.sites.length := by
    cases hs : s.main with
    | getAllSites => rw [hs] at hm; simp [MainOk, Idle, hr] at hm
    | goHandleResults => rw [hs] at hm; simp [MainOk, Idle, hr] at hm
    | wgAdd i => rw [hs] at hm; simp only [MainOk, Started] at hm; exact hm.1.2.2
    | goProcess i => rw [hs] at hm; simp only [MainOk, Started] at hm; exact hm.1.2.2
    | wgWait => rw [hs] at hm; simp only [MainOk, Started] at hm; exact hm.1.2.2
    | returned r =>
      rw [hs] at hm
      cases r with
      | ok t => simp only [MainOk, Started] at hm; exact hm.1.2.2
      | error e => simp [MainOk, Idle, hr] at hm
  exact ⟨hl, by omega, by omega, hh.2.2⟩

end concurrent

/-! ## The sequential loop as a run of `HandleResults` in site order -/

namespace single_thread
open concurrent

theorem rangeSites_eq_collect (w : Upstream) (sites : Sites) :
    ∀ (pre : Sites) (result : Table) (reqs : List String),
      (rangeSites w pre.length sites result reqs).1 =
        HandleResults.collect result
          ((List.range' pre.length sites.length).map (message w (pre ++ sites))) := by
  induction sites with
  | nil =>
    intro pre result reqs
    simp [rangeSites, HandleResults.collect]
  | cons site rest ih =>
    intro pre result reqs
    have hmsg : message w (pre ++ site :: rest) pre.length
        = (ProcessAllSiteIds.resolve w pre.length site.Id).1 := by
      have hget : (pre ++ site :: rest)[pre.length]? = some site := by
        rw [List.getElem?_append_right (Nat.le_refl _)]
        simp
      simp only [message, hget]
    have hih := ih (pre ++ [site])
    simp only [List.length_append, List.length_singleton, List.append_assoc,
      List.singleton_append] at hih
    simp only [List.length_cons, List.range'_succ, List.map_cons, HandleResults.collect,
      List.foldl_cons, hmsg]
    simp only [HandleResults.collect] at hih
    unfold rangeSites
    cases hg : GetCurrencyConversion w (Caller.resolver pre.length) site.Id CURRENCY_USD with
    | mk res r =>
      cases res with
      | error e =>
        simp only [ProcessAllSiteIds.resolve, hg, HandleResults.store]
        exact hih _ _
      | ok conv =>
        simp only [ProcessAllSiteIds.resolve, hg, HandleResults.store]
        exact hih _ _

/-- The sequential `GetAllCurrencies` returns what `HandleResults` builds from the values
of the sites in the order of the site list. -/
theorem GetAllCurrencies_eq (w : Upstream) :
    (GetAllCurrencies w).1 =
      match (GetAllSites w).1 with
      | .error err => .error err
      | .ok sites =>
        .ok (HandleResults.collect [] ((List.range sites.length).map (message w sites))) := by
  unfold GetAllCurrencies
  cases hg : GetAllSites w with
  | mk res r =>
    cases res with
    | error e => rfl
    | ok sites =>
      simp only
      have := rangeSites_eq_collect w sites [] [] r
      simp only [List.length_nil, List.nil_append] at this
      rw [this, List.range_eq_range']

end single_thread
end ApiFetch

namespace ApiFetch
namespace concurrent

/-! ## Termination: every step uses up one unit of a finite budget -/

theorem sum_processSteps_set (l : List ProcessPc) (k : Nat) (p q : ProcessPc)
    (h : l[k]? = some p) :
    ((l.set k q).map processSteps).sum + processSteps p =
      (l.map processSteps).sum + processSteps q := by
  induction l generalizing k with
  | nil => simp at h
  | cons x rest ih =>
    cases k with
    | zero =>
      simp only [List.getElem?_cons_zero, Option.some.injEq] at h
      subst h
      simp only [List.set_cons_zero, List.map_cons, List.sum_cons]
      omega
    | succ j =>
      simp only [List.getElem?_cons_succ] at h
      have := ih j h
      simp only [List.set_cons_succ, List.map_cons, List.sum_cons]
      omega

theorem Started.siteCount (w : Upstream) (s : State) (h : Started w s) :
    siteCount w = s.sites.length ∧ s.loop = s.sites.length := by
  obtain ⟨h1, _, h3⟩ := h
  simp only [concurrent.siteCount, h1]
  exact ⟨trivial, h3⟩

theorem Inv.started_of_handler (w : Upstream) (s : State) (h : Inv w s)
    (hh : s.handler ≠ HandlerPc.notStarted) : Started w s := by
  have hm := h.main_ok
  cases hs : s.main with
  | getAllSites => rw [hs] at hm; simp only [MainOk, Idle] at hm; exact absurd hm.1.1 hh
  | goHandleResults => rw [hs] at hm; simp only [MainOk, Idle] at hm; exact absurd hm.1.1 hh
  | wgAdd i => rw [hs] at hm; simp only [MainOk] at hm; exact hm.1
  | goProcess i => rw [hs] at hm; simp only [MainOk] at hm; exact hm.1
  | wgWait => rw [hs] at hm; simp only [MainOk] at hm; exact hm.1
  | returned r =>
    rw [hs] at hm
    cases r with
    | ok t => simp only [MainOk] at hm; exact hm.1
    | error e => simp only [MainOk, Idle] at hm; exact absurd hm.1.1 hh

theorem stepsLeft_stepMain (w : Upstream) (s s' : State) (h : Inv w s)
    (hs : stepMain w s = some s') : stepsLeft w s' < stepsLeft w s := by
  have hm := h.main_ok
  unfold concurrent.stepMain at hs
  split at hs
  · rename_i hpc
    split at hs
    · cases hs
      simp only [stepsLeft, hpc, mainSteps]
      omega
    · cases hs
      simp only [stepsLeft, hpc, mainSteps]
      omega
  · rename_i hpc
    rw [hpc] at hm
    simp only [MainOk, Idle] at hm
    cases hs
    simp only [stepsLeft, hpc, mainSteps, hm.1.1, handlerSteps]
    omega
  · rename_i i hpc
    split at hs
    · cases hs
      simp only [stepsLeft, hpc, mainSteps]
      omega
    · cases hs
      simp only [stepsLeft, hpc, mainSteps]
      omega
  · rename_i i hpc
    rw [hpc] at hm
    simp only [MainOk] at hm
    have hc := (Started.siteCount w s hm.1).1
    split at hs
    · cases hs
      simp only [stepsLeft, hpc, mainSteps, List.map_append, List.sum_append, List.map_cons,
        List.map_nil, List.sum_cons, List.sum_nil, processSteps]
      omega
    · cases hs
  · rename_i hpc
    split at hs
    · cases hs
      simp only [stepsLeft, hpc, mainSteps]
      omega
    · cases hs
  · cases hs

theorem stepsLeft_stepHandler (w : Upstream) (s s' : State) (h : Inv w s)
    (hs : stepHandler s = some s') : stepsLeft w s' < stepsLeft w s := by
  have hh := h.handler_ok
  have hst := h.started_of_handler
  unfold concurrent.stepHandler at hs
  split at hs
  · cases hs
  · rename_i hpc
    split at hs
    · cases hs
      simp only [stepsLeft, hpc, handlerSteps]
      omega
    · cases hs
      simp only [stepsLeft, hpc, handlerSteps]
      omega
  · rename_i i hpc
    split at hs
    · split at hs
      · cases hs
        simp only [stepsLeft, hpc, handlerSteps]
        omega
      · cases hs
    · cases hs
      simp only [stepsLeft, hpc, handlerSteps]
      omega
  · rename_i i conv hpc
    have hc := Started.siteCount w s (hst (by rw [hpc]; simp))
    rw [hpc] at hh
    obtain ⟨pre, k, _, _, _, _, h5, _⟩ := hh
    cases hs
    simp only [stepsLeft, hpc, handlerSteps]
    omega
  · rename_i i hpc
    have hc := Started.siteCount w s (hst (by rw [hpc]; simp))
    rw [hpc] at hh
    simp only [HandlerOk] at hh
    cases hs
    simp only [stepsLeft, hpc, handlerSteps]
    omega
  · cases hs

theorem stepsLeft_stepProcess (w : Upstream) (s s' : State) (k : Nat)
    (hs : stepProcess w s k = some s') : stepsLeft w s' < stepsLeft w s := by
  unfold concurrent.stepProcess at hs
  split at hs
  · rename_i siteId hpk
    cases hs
    have := sum_processSteps_set s.procs k _
      (ProcessPc.send (ProcessAllSiteIds.resolve w k siteId).1) hpk
    simp only [processSteps] at this
    simp only [stepsLeft]
    omega
  · rename_i conv hpk
    split at hs
    · cases hs
      have := sum_processSteps_set s.procs k _ ProcessPc.panicked hpk
      simp only [processSteps] at this
      simp only [stepsLeft]
      omega
    · split at hs
      · rename_i i hpc
        split at hs
        · cases hs
          have := sum_processSteps_set s.procs k _ ProcessPc.returned hpk
          simp only [processSteps] at this
          simp only [stepsLeft, hpc, handlerSteps]
          omega
        · cases hs
      · cases hs
  · cases hs

/-- Every step of a reachable state uses up budget. -/
theorem stepsLeft_step (w : Upstream) (s s' : State) (a : Actor) (h : Inv w s)
    (hs : step w s a = some s') : stepsLeft w s' < stepsLeft w s := by
  cases a with
  | main => exact stepsLeft_stepMain w s s' h hs
  | handler => exact stepsLeft_stepHandler w s s' h hs
  | process k => exact stepsLeft_stepProcess w s s' k hs

/-- A run of `sched.length` steps uses up that much budget. -/
theorem stepsLeft_exec (w : Upstream) (sched : List Actor) (s s' : State) (h : Inv w s)
    (hs : exec w sched s = some s') : stepsLeft w s' + sched.length ≤ stepsLeft w s := by
  induction sched generalizing s with
  | nil =>
    simp only [concurrent.exec, Option.some.injEq] at hs
    subst hs
    simp
  | cons a rest ih =>
    simp only [concurrent.exec] at hs
    cases hst : concurrent.step w s a with
    | none => rw [hst] at hs; cases hs
    | some t =>
      rw [hst] at hs
      have h1 := ih t (Inv.step w s t a h hst) hs
      have h2 := stepsLeft_step w s t a h hst
      simp only [List.length_cons]
      omega

theorem stepsLeft_init (w : Upstream) : stepsLeft w State.init = 7 * siteCount w + 7 := by
  simp only [stepsLeft, State.init, mainSteps, handlerSteps, List.map_nil, List.sum_nil]
  omega

end concurrent
end ApiFetch

namespace ApiFetch
namespace concurrent

/-! ## Progress: no deadlock, no goroutine left behind -/

theorem exists_not_mem_of_length_lt (l : List Nat) (n : Nat) (h : l.length < n) :
    ∃ k, k < n ∧ k ∉ l := by
  by_contra hcon
  push_neg at hcon
  have hsub : Finset.range n ⊆ l.toFinset := by
    intro x hx
    simp only [Finset.mem_range] at hx
    simpa using hcon x hx
  have h1 := Finset.card_le_card hsub
  have h2 := List.toFinset_card_le l
  simp only [Finset.card_range] at h1
  omega

/-- In a reachable state either every goroutine has returned or some goroutine can move. -/
theorem progress_of_inv (w : Upstream) (s : State) (h : Inv w s) :
    Final s ∨ ∃ a s', concurrent.step w s a = some s' := by
  have hm := h.main_ok
  have hh := h.handler_ok
  cases hs : s.main with
  | getAllSites =>
    right
    refine ⟨Actor.main, ?_⟩
    simp only [concurrent.step, stepMain, hs]
    split <;> exact ⟨_, rfl⟩
  | goHandleResults =>
    right
    refine ⟨Actor.main, ?_⟩
    simp only [concurrent.step, stepMain, hs]
    exact ⟨_, rfl⟩
  | wgAdd i =>
    right
    refine ⟨Actor.main, ?_⟩
    simp only [concurrent.step, stepMain, hs]
    split <;> exact ⟨_, rfl⟩
  | goProcess i =>
    right
    rw [hs] at hm
    simp only [MainOk] at hm
    refine ⟨Actor.main, ?_⟩
    have hi : s.sites[i]? = some s.sites[i] := List.getElem?_eq_getElem hm.2.1
    simp only [concurrent.step, stepMain, hs, hi]
    exact ⟨_, rfl⟩
  | wgWait =>
    right
    rw [hs] at hm
    simp only [MainOk, Started] at hm
    obtain ⟨⟨g1, g2, g3⟩, g4, g5, g6⟩ := hm
    by_cases hz : s.wg = 0
    · refine ⟨Actor.main, ?_⟩
      simp only [concurrent.step, stepMain, hs, hz, if_true]
      exact ⟨_, rfl⟩
    · have hw := h.wg_eq
      have hnn := h.wg_nonneg
      have hd : s.dones < s.sites.length := by omega
      cases hpc : s.handler with
      | notStarted => exact absurd hpc g2
      | entry =>
        refine ⟨Actor.handler, ?_⟩
        simp only [concurrent.step, stepHandler, hpc]
        split <;> exact ⟨_, rfl⟩
      | store i conv =>
        refine ⟨Actor.handler, ?_⟩
        simp only [concurrent.step, stepHandler, hpc]
        exact ⟨_, rfl⟩
      | wgDone i =>
        refine ⟨Actor.handler, ?_⟩
        simp only [concurrent.step, stepHandler, hpc]
        exact ⟨_, rfl⟩
      | returned =>
        rw [hpc] at hh
        simp only [HandlerOk] at hh
        omega
      | receive i =>
        rw [hpc] at hh
        simp only [HandlerOk] at hh
        obtain ⟨h1, h2, h3, h4⟩ := hh
        have hil : i < s.loop := by omega
        obtain ⟨k, hk, hkn⟩ := exists_not_mem_of_length_lt s.arrivals s.procs.length (by omega)
        have hget : s.procs[k]? = some s.procs[k] := List.getElem?_eq_getElem hk
        have hpk := h.procs_ok k _ hget
        refine ⟨Actor.process k, ?_⟩
        cases hp : s.procs[k] with
        | resolve siteId =>
          rw [hp] at hget
          simp only [concurrent.step, stepProcess, hget]
          exact ⟨_, rfl⟩
        | send conv =>
          rw [hp] at hget
          simp only [concurrent.step, stepProcess, hget, g6, hpc, hil, if_true]
          exact ⟨_, rfl⟩
        | returned =>
          rw [hp] at hpk
          simp only [ProcOk] at hpk
          exact absurd hpk hkn
        | panicked =>
          rw [hp] at hpk
          simp only [ProcOk] at hpk
  | returned r =>
    cases r with
    | error e =>
      left
      rw [hs] at hm
      simp only [MainOk, Idle] at hm
      refine ⟨⟨_, hs⟩, Or.inr hm.1.1, ?_⟩
      rw [hm.1.2.1]
      simp
    | ok t =>
      obtain ⟨g1, g2, g3, g4, g5, g6, g7, g8, g9⟩ := h.returned_ok w s t hs
      rcases g9 with hpc | hpc | ⟨hpc, _⟩
      · right
        rw [hs] at hm
        simp only [MainOk, Started] at hm
        have hl : ¬ s.sites.length < s.loop := by omega
        refine ⟨Actor.handler, ?_⟩
        simp only [concurrent.step, stepHandler, hpc, hl, if_false]
        exact ⟨_, rfl⟩
      · left
        refine ⟨⟨_, hs⟩, Or.inl hpc, ?_⟩
        intro p hp
        obtain ⟨k, hk⟩ := List.mem_iff_getElem?.mp hp
        have hlt : k < s.procs.length := by
          rcases Nat.lt_or_ge k s.procs.length with hlt | hge
          · exact hlt
          · rw [List.getElem?_eq_none hge] at hk
            cases hk
        have hmem : k ∈ s.arrivals := by
          rw [g6.mem_iff]
          simp only [List.mem_range]
          omega
        have hpk := h.procs_ok k p hk
        cases p with
        | resolve siteId => simp only [ProcOk] at hpk; exact absurd hmem hpk.1
        | send conv => simp only [ProcOk] at hpk; exact absurd hmem hpk.1
        | returned => rfl
        | panicked => simp only [ProcOk] at hpk
      · right
        refine ⟨Actor.handler, ?_⟩
        simp only [concurrent.step, stepHandler, hpc]
        split <;> exact ⟨_, rfl⟩

/-- From every reachable state some schedule lets every goroutine return. -/
theorem exists_final_of_inv (w : Upstream) :
    ∀ (n : Nat) (s : State), Inv w s → stepsLeft w s ≤ n →
      ∃ sched s', concurrent.exec w sched s = some s' ∧ Final s' := by
  intro n
  induction n with
  | zero =>
    intro s h hn
    rcases progress_of_inv w s h with hf | ⟨a, s', hs⟩
    · exact ⟨[], s, rfl, hf⟩
    · have := stepsLeft_step w s s' a h hs
      omega
  | succ n ih =>
    intro s h hn
    rcases progress_of_inv w s h with hf | ⟨a, s', hs⟩
    · exact ⟨[], s, rfl, hf⟩
    · have hlt := stepsLeft_step w s s' a h hs
      obtain ⟨sched, s'', hrun, hfin⟩ := ih s' (Inv.step w s s' a h hs) (by omega)
      refine ⟨a :: sched, s'', ?_, hfin⟩
      simp only [concurrent.exec, hs, Option.some_bind, hrun]

theorem exec_append (w : Upstream) (l₁ l₂ : List Actor) (s : State) :
    exec w (l₁ ++ l₂) s = (exec w l₁ s).bind (exec w l₂) := by
  induction l₁ generalizing s with
  | nil => simp [concurrent.exec]
  | cons a rest ih =>
    simp only [List.cons_append, concurrent.exec]
    cases hst : concurrent.step w s a with
    | none => simp
    | some t => simp [ih]

end concurrent
end ApiFetch

namespace ApiFetch
namespace concurrent

/-! ## The run in which the values arrive in the order of the site list -/

theorem getElem?_concat_of_length {α : Type} (l : List α) (a : α) (i : Nat)
    (h : l.length = i) : (l ++ [a])[i]? = some a := by
  subst h
  simp

theorem set_concat_of_length {α : Type} (l : List α) (a b : α) (i : Nat)
    (h : l.length = i) : (l ++ [a]).set i b = l ++ [b] := by
  subst h
  induction l with
  | nil => rfl
  | cons x rest ih => simp [ih]

theorem inOrderRound_spec (w : Upstream) (sites : Sites) (i : Nat) (s : State)
    (h : AtRound sites i s) (hi : i < sites.length) :
    ∃ s', exec w (inOrderRound i) s = some s' ∧ AtRound sites (i + 1) s' := by
  obtain ⟨h1, h2, h3, h4, h5, h6, h7, h8⟩ := h
  have hne : sites.length ≠ 0 := by omega
  rw [if_neg hne] at h3
  have hi' : i < s.sites.length := by rw [h2]; exact hi
  have hsite : s.sites[i]? = some s.sites[i] := List.getElem?_eq_getElem hi'
  have hl : i < s.loop := by omega
  have hlen : s.procs.length = i := by rw [h5]; simp
  have e1 := getElem?_concat_of_length s.procs (ProcessPc.resolve s.sites[i].Id) i hlen
  have e2 := set_concat_of_length s.procs (ProcessPc.resolve s.sites[i].Id)
    (ProcessPc.send (ProcessAllSiteIds.resolve w i s.sites[i].Id).1) i hlen
  have e3 := getElem?_concat_of_length s.procs
    (ProcessPc.send (ProcessAllSiteIds.resolve w i s.sites[i].Id).1) i hlen
  have e4 := set_concat_of_length s.procs
    (ProcessPc.send (ProcessAllSiteIds.resolve w i s.sites[i].Id).1) ProcessPc.returned i hlen
  have run : exec w (inOrderRound i) s = some
      { s with
        main := MainPc.wgAdd (i + 1), handler := HandlerPc.receive (i + 1),
        procs := s.procs ++ [ProcessPc.returned], wg := s.wg + 1 - 1,
        result := HandleResults.store s.result (ProcessAllSiteIds.resolve w i s.sites[i].Id).1,
        requests := s.requests ++ (ProcessAllSiteIds.resolve w i s.sites[i].Id).2,
        arrivals := s.arrivals ++ [i], adds := s.adds + 1, dones := s.dones + 1 } := by
    simp only [inOrderRound, exec, step, stepMain, stepProcess, stepHandler, h1, hi', if_true,
      Option.some_bind, hsite, e1, e2, e3, e4, h7, h3, hl, Bool.false_eq_true, if_false]
  refine ⟨_, run, ?_⟩
  simp only [AtRound, hne, if_false, h2, h4, h5, h6, h7, h8, List.range_succ,
    List.replicate_succ']
  simp

theorem inOrderRounds_spec (w : Upstream) (sites : Sites) (s : State)
    (h : AtRound sites 0 s) :
    ∀ n, n ≤ sites.length → ∃ s', exec w (inOrderRounds n) s = some s' ∧ AtRound sites n s' := by
  intro n
  induction n with
  | zero =>
    intro _
    exact ⟨s, rfl, h⟩
  | succ n ih =>
    intro hn
    obtain ⟨s1, hs1, hr1⟩ := ih (by omega)
    obtain ⟨s2, hs2, hr2⟩ := inOrderRound_spec w sites n s1 hr1 (by omega)
    refine ⟨s2, ?_, hr2⟩
    simp only [inOrderRounds, exec_append, hs1, Option.some_bind, hs2]

/-- When the site list is fetched, the in-order schedule runs through: `GetAllCurrencies`
returns a table and the values have arrived in the order of the site list. -/
theorem inOrderSchedule_spec (w : Upstream) (sites : Sites)
    (hg : (GetAllSites w).1 = .ok sites) :
    ∃ s t, exec w (inOrderSchedule sites.length) State.init = some s ∧
      s.main = MainPc.returned (.ok t) ∧ s.sites = sites ∧
      s.arrivals = List.range sites.length := by
  have hreq := GetAllSites_requests w
  cases hgs : GetAllSites w with
  | mk res reqs =>
    rw [hgs] at hg hreq
    simp only at hg hreq
    subst hg
    -- the three opening steps
    have h0 : ∃ s0, exec w [Actor.main, Actor.main, Actor.handler] State.init = some s0 ∧
        AtRound sites 0 s0 := by
      by_cases hz : sites.length = 0
      · have run : exec w [Actor.main, Actor.main, Actor.handler] State.init = some
            { State.init with
              main := MainPc.wgAdd 0, sites := sites, handler := HandlerPc.returned,
              loop := sites.length, requests := [] ++ reqs } := by
          simp only [exec, step, stepMain, stepHandler, State.init, hgs, Option.some_bind, hz,
            if_true]
        exact ⟨_, run, by simp [AtRound, hz, State.init]⟩
      · have run : exec w [Actor.main, Actor.main, Actor.handler] State.init = some
            { State.init with
              main := MainPc.wgAdd 0, sites := sites, handler := HandlerPc.receive 0,
              loop := sites.length, requests := [] ++ reqs } := by
          simp only [exec, step, stepMain, stepHandler, State.init, hgs, Option.some_bind, hz,
            if_false]
        exact ⟨_, run, by simp [AtRound, hz, State.init]⟩
    obtain ⟨s0, hs0, hr0⟩ := h0
    obtain ⟨s1, hs1, hr1⟩ := inOrderRounds_spec w sites s0 hr0 sites.length (Nat.le_refl _)
    obtain ⟨h1, h2, h3, h4, h5, h6, h7, h8⟩ := hr1
    have hlt : ¬ sites.length < s1.sites.length := by rw [h2]; omega
    have run : exec w (inOrderSchedule sites.length) State.init = some
        { s1 with main := MainPc.returned (.ok s1.result), closed := true } := by
      simp only [inOrderSchedule, exec_append, hs0, Option.some_bind, hs1]
      simp only [exec, step, stepMain, h1, hlt, if_false, Option.some_bind, h6, if_true]
    exact ⟨_, s1.result, run, rfl, h2, h8⟩

end concurrent
end ApiFetch

namespace ApiFetch
open concurrent

/-! ## What a resolution returns -/

theorem GetSite_requests (w : Upstream) (c : Caller) (siteId : String) :
    (GetSite w c siteId).2 = [SITES_SEARCH_URL siteId] := by
  unfold GetSite
  split
  · rfl
  · split <;> rfl

/-- A successful `GetCurrencyConversion` went through a successful `GetSite`, a
successful GET of the conversion and a successful decoding. -/
theorem GetCurrencyConversion_ok (w : Upstream) (c : Caller) (siteId target : String)
    (conv : CurrencyConversion) (h : (GetCurrencyConversion w c siteId target).1 = .ok conv) :
    ∃ site resp decoded, (GetSite w c siteId).1 = .ok site ∧
      w.Get c (CURRENCIES_CONVERSION_URL site.DefaultCurrencyId target) = .ok resp ∧
      w.UnmarshalConversion resp.Body = .ok decoded ∧
      conv = { decoded with From := site.DefaultCurrencyId, To := target } := by
  unfold GetCurrencyConversion at h
  cases hs : GetSite w c siteId with
  | mk res reqs =>
    cases res with
    | error e => simp [hs] at h
    | ok site =>
      simp only [hs] at h
      cases hg : w.Get c (CURRENCIES_CONVERSION_URL site.DefaultCurrencyId target) with
      | error e => simp [hg] at h
      | ok resp =>
        simp only [hg] at h
        cases hd : w.UnmarshalConversion resp.Body with
        | error e => simp [hd] at h
        | ok decoded =>
          simp only [hd, Except.ok.injEq] at h
          exact ⟨site, resp, decoded, rfl, hg, hd, h.symm⟩

theorem GetCurrencyConversion_of_GetSite_error (w : Upstream) (c : Caller)
    (siteId target : String) (err : Error) (h : (GetSite w c siteId).1 = .error err) :
    GetCurrencyConversion w c siteId target = (.error err, [SITES_SEARCH_URL siteId]) := by
  have hr := GetSite_requests w c siteId
  unfold GetCurrencyConversion
  cases hs : GetSite w c siteId with
  | mk res reqs =>
    rw [hs] at h hr
    simp only at h hr
    subst h hr
    rfl

namespace concurrent

theorem message_lt (w : Upstream) (sites : Sites) (k : Nat) (conv : CurrencyConversion)
    (h : message w sites k = some conv) : k < sites.length := by
  rcases Nat.lt_or_ge k sites.length with hlt | hge
  · exact hlt
  · simp [message, List.getElem?_eq_none hge] at h

/-- The `k`-th goroutine sends a value exactly when `GetCurrencyConversion` succeeds for
the `k`-th site, and the `From` of the value is the default currency of that site. -/
theorem message_some (w : Upstream) (sites : Sites) (k : Nat) (conv : CurrencyConversion)
    (h : message w sites k = some conv) :
    resolves w sites k = true ∧ defaultCurrency w sites k = some conv.From := by
  unfold message at h
  unfold resolves defaultCurrency
  cases hk : sites[k]? with
  | none => simp [hk] at h
  | some summary =>
    simp only [hk, ProcessAllSiteIds.resolve] at h ⊢
    cases hg : GetCurrencyConversion w (Caller.resolver k) summary.Id CURRENCY_USD with
    | mk res reqs =>
      cases res with
      | error e => simp [hg] at h
      | ok cv =>
        simp only [hg, Option.some.injEq] at h
        subst h
        have hg1 : (GetCurrencyConversion w (Caller.resolver k) summary.Id CURRENCY_USD).1
            = .ok cv := by rw [hg]
        obtain ⟨site, resp, decoded, h1, _, _, h4⟩ :=
          GetCurrencyConversion_ok w _ _ _ _ hg1
        simp only [h1, h4, and_self]

theorem message_none_iff (w : Upstream) (sites : Sites) (k : Nat) :
    message w sites k = none ↔ resolves w sites k = false := by
  unfold message resolves
  cases hk : sites[k]? with
  | none => simp
  | some summary =>
    simp only [ProcessAllSiteIds.resolve]
    cases hg : GetCurrencyConversion w (Caller.resolver k) summary.Id CURRENCY_USD with
    | mk res reqs =>
      cases res with
      | error e => simp
      | ok cv => simp

theorem exists_message_of_resolves (w : Upstream) (sites : Sites) (k : Nat)
    (h : resolves w sites k = true) : ∃ conv, message w sites k = some conv := by
  cases hm : message w sites k with
  | none =>
    rw [message_none_iff] at hm
    rw [hm] at h
    cases h
  | some conv => exact ⟨conv, rfl⟩

theorem mem_map_message (w : Upstream) (sites : Sites) (l : List Nat)
    (hl : l.Perm (List.range sites.length)) (conv : CurrencyConversion) :
    some conv ∈ l.map (message w sites) ↔ ∃ k, message w sites k = some conv := by
  simp only [List.mem_map]
  constructor
  · rintro ⟨k, _, hk⟩
    exact ⟨k, hk⟩
  · rintro ⟨k, hk⟩
    refine ⟨k, ?_, hk⟩
    rw [hl.mem_iff]
    simpa using message_lt w sites k conv hk

/-- The keys of the table built from the values of all the sites, in any order of arrival,
are the default currencies of the sites that were resolved. -/
theorem mem_keys_collect_iff (w : Upstream) (sites : Sites) (l : List Nat)
    (hl : l.Perm (List.range sites.length)) (c : String) :
    c ∈ Table.keys (HandleResults.collect [] (l.map (message w sites))) ↔
      ResolvedCurrency w sites c := by
  rw [HandleResults.mem_keys_collect]
  constructor
  · rintro ⟨conv, hmem, hc⟩
    obtain ⟨k, hk⟩ := (mem_map_message w sites l hl conv).mp hmem
    obtain ⟨h1, h2⟩ := message_some w sites k conv hk
    exact ⟨k, h1, by rw [h2, hc]⟩
  · rintro ⟨k, h1, h2⟩
    obtain ⟨conv, hk⟩ := exists_message_of_resolves w sites k h1
    obtain ⟨_, h4⟩ := message_some w sites k conv hk
    refine ⟨conv, (mem_map_message w sites l hl conv).mpr ⟨k, hk⟩, ?_⟩
    rw [h4] at h2
    exact Option.some.inj h2

/-- In a reachable state the site list, once fetched, is the one `GetAllSites` returns. -/
theorem sites_eq_of_returned (w : Upstream) (sites : Sites) (s : State) (t : Table)
    (hg : (GetAllSites w).1 = .ok sites) (h : Inv w s)
    (hr : s.main = MainPc.returned (.ok t)) : s.sites = sites := by
  have h1 := (h.returned_ok w s t hr).1
  rw [hg] at h1
  exact (Except.ok.inj h1).symm

/-- When the site list is fetched, `GetAllCurrencies` never returns an error. -/
theorem returned_is_ok (w : Upstream) (sites : Sites) (s : State) (r : Except Error Table)
    (hg : (GetAllSites w).1 = .ok sites) (h : Inv w s)
    (hr : s.main = MainPc.returned r) : ∃ t, r = .ok t := by
  cases r with
  | ok t => exact ⟨t, rfl⟩
  | error e =>
    have hm := h.main_ok
    rw [hr] at hm
    simp only [MainOk] at hm
    rw [hg] at hm
    cases hm.2.1

/-- When the site list is not fetched, `GetAllCurrencies` can only return that error. -/
theorem returned_is_error (w : Upstream) (err : Error) (s : State) (r : Except Error Table)
    (hg : (GetAllSites w).1 = .error err) (h : Inv w s)
    (hr : s.main = MainPc.returned r) : r = .error err := by
  have hm := h.main_ok
  rw [hr] at hm
  cases r with
  | ok t =>
    simp only [MainOk, Started] at hm
    rw [hg] at hm
    cases hm.1.1
  | error e =>
    simp only [MainOk] at hm
    rw [hg] at hm
    rw [Except.error.inj hm.2.1]

end concurrent
end ApiFetch

namespace ApiFetch
namespace concurrent

/-! ## Counting the entries, and tables that do not depend on the order of arrival -/

theorem eq_of_filterMap_nodup {α β : Type} (g : α → Option β) (l : List α)
    (h : (l.filterMap g).Nodup) (i k : α) (c : β) (hi : i ∈ l) (hk : k ∈ l)
    (gi : g i = some c) (gk : g k = some c) : i = k := by
  induction l with
  | nil => simp at hi
  | cons a rest ih =>
    cases ha : g a with
    | none =>
      rw [List.filterMap_cons_none ha] at h
      simp only [List.mem_cons] at hi hk
      rcases hi with hi | hi
      · rw [hi, ha] at gi; cases gi
      · rcases hk with hk | hk
        · rw [hk, ha] at gk; cases gk
        · exact ih h hi hk
    | some b =>
      rw [List.filterMap_cons_some ha, List.nodup_cons] at h
      simp only [List.mem_cons] at hi hk
      rcases hi with hi | hi
      · rcases hk with hk | hk
        · rw [hi, hk]
        · exfalso
          apply h.1
          rw [hi, ha] at gi
          rw [List.mem_filterMap]
          exact ⟨k, hk, by rw [gk, ← Option.some.inj gi]⟩
      · rcases hk with hk | hk
        · exfalso
          apply h.1
          rw [hk, ha] at gk
          rw [List.mem_filterMap]
          exact ⟨i, hi, by rw [gi, ← Option.some.inj gk]⟩
        · exact ih h.2 hi hk

theorem resolves_lt (w : Upstream) (sites : Sites) (k : Nat)
    (h : resolves w sites k = true) : k < sites.length := by
  obtain ⟨conv, hc⟩ := exists_message_of_resolves w sites k h
  exact message_lt w sites k conv hc

/-- With exactly one failed resolution, at the site `j`, and distinct default currencies, the
table built from the values of all the sites has one entry less than there are sites, and
its keys are the default currencies of the other sites; the default currency of the site `j`
is none of them. -/
theorem collect_one_failure (w : Upstream) (sites : Sites) (j : Nat) (l : List Nat)
    (hl : l.Perm (List.range sites.length))
    (hone : (List.range sites.length).filter (fun k => !(resolves w sites k)) = [j])
    (hdist : ((List.range sites.length).filterMap (defaultCurrency w sites)).Nodup) :
    (HandleResults.collect [] (l.map (message w sites))).length = sites.length - 1 ∧
    (∀ c, defaultCurrency w sites j = some c →
      c ∉ Table.keys (HandleResults.collect [] (l.map (message w sites)))) ∧
    (∀ c, c ∈ Table.keys (HandleResults.collect [] (l.map (message w sites))) ↔
      ∃ k, k ≠ j ∧ resolves w sites k = true ∧ defaultCurrency w sites k = some c) := by
  have hj : j ∈ (List.range sites.length).filter (fun k => !(resolves w sites k)) := by
    rw [hone]; simp
  simp only [List.mem_filter, List.mem_range, Bool.not_eq_true', ] at hj
  obtain ⟨hjlt, hjf⟩ := hj
  have hother : ∀ k, k < sites.length → k ≠ j → resolves w sites k = true := by
    intro k hk hne
    by_contra hcon
    have : k ∈ (List.range sites.length).filter (fun k => !(resolves w sites k)) := by
      simp only [List.mem_filter, List.mem_range, Bool.not_eq_true']
      exact ⟨hk, by simpa using hcon⟩
    rw [hone] at this
    simp only [List.mem_singleton] at this
    exact hne this
  have hkeys : ∀ c, c ∈ Table.keys (HandleResults.collect [] (l.map (message w sites))) ↔
      ∃ k, k ≠ j ∧ resolves w sites k = true ∧ defaultCurrency w sites k = some c := by
    intro c
    rw [mem_keys_collect_iff w sites l hl c]
    constructor
    · rintro ⟨k, h1, h2⟩
      refine ⟨k, ?_, h1, h2⟩
      intro hkj
      rw [hkj, hjf] at h1
      cases h1
    · rintro ⟨k, _, h1, h2⟩
      exact ⟨k, h1, h2⟩
  have hinj : ∀ i k c, i < sites.length → k < sites.length →
      defaultCurrency w sites i = some c → defaultCurrency w sites k = some c → i = k := by
    intro i k c hi hk gi gk
    exact eq_of_filterMap_nodup _ _ hdist i k c (by simpa using hi) (by simpa using hk) gi gk
  refine ⟨?_, ?_, hkeys⟩
  · -- count the keys
    have hnd : (Table.keys (HandleResults.collect [] (l.map (message w sites)))).Nodup :=
      HandleResults.collect_keys_nodup _ _ (by simp [Table.keys])
    have hlen : (HandleResults.collect [] (l.map (message w sites))).length =
        (Table.keys (HandleResults.collect [] (l.map (message w sites)))).toFinset.card := by
      rw [List.toFinset_card_of_nodup hnd]
      simp [Table.keys]
    rw [hlen]
    have himg : (Table.keys (HandleResults.collect [] (l.map (message w sites)))).toFinset =
        Finset.image (fun k => ((defaultCurrency w sites k).getD ""))
          ((Finset.range sites.length).erase j) := by
      ext c
      simp only [List.mem_toFinset, Finset.mem_image, Finset.mem_erase, Finset.mem_range]
      rw [hkeys c]
      constructor
      · rintro ⟨k, h1, h2, h3⟩
        exact ⟨k, ⟨h1, resolves_lt w sites k h2⟩, by rw [h3]; rfl⟩
      · rintro ⟨k, ⟨h1, h2⟩, h3⟩
        have hr := hother k h2 h1
        obtain ⟨conv, hc⟩ := exists_message_of_resolves w sites k hr
        have hd := (message_some w sites k conv hc).2
        rw [hd] at h3
        simp only [Option.getD_some] at h3
        exact ⟨k, h1, hr, by rw [hd, h3]⟩
    rw [himg, Finset.card_image_of_injOn, Finset.card_erase_of_mem (by simpa using hjlt),
      Finset.card_range]
    intro i hi k hk hik
    simp only [Finset.coe_erase, Finset.coe_range, Set.mem_diff, Set.mem_Iio,
      Set.mem_singleton_iff] at hi hk
    obtain ⟨ci, hci⟩ := exists_message_of_resolves w sites i (hother i hi.1 hi.2)
    obtain ⟨ck, hck⟩ := exists_message_of_resolves w sites k (hother k hk.1 hk.2)
    have di := (message_some w sites i ci hci).2
    have dk := (message_some w sites k ck hck).2
    simp only [di, dk, Option.getD_some] at hik
    rw [← hik] at dk
    exact hinj i k _ hi.1 hk.1 di dk
  · intro c hc hmem
    obtain ⟨k, h1, h2, h3⟩ := (hkeys c).mp hmem
    exact h1 (hinj k j c (resolves_lt w sites k h2) hjlt h3 hc)

theorem message_ok (w : Upstream) (sites : Sites) (k : Nat) (conv : CurrencyConversion)
    (h : message w sites k = some conv) :
    ∃ summary, sites[k]? = some summary ∧
      (GetCurrencyConversion w (Caller.resolver k) summary.Id CURRENCY_USD).1 = .ok conv := by
  unfold message at h
  cases hk : sites[k]? with
  | none => simp [hk] at h
  | some summary =>
    simp only [hk, ProcessAllSiteIds.resolve] at h
    cases hg : GetCurrencyConversion w (Caller.resolver k) summary.Id CURRENCY_USD with
    | mk res reqs =>
      cases res with
      | error e => simp [hg] at h
      | ok cv =>
        simp only [hg, Option.some.injEq] at h
        exact ⟨summary, rfl, by rw [hg, h]⟩

/-- Under a stable upstream the ratio sent for a site depends on its default currency only. -/
theorem stable_ratio (w : Upstream) (hw : w.Stable) (sites : Sites) (i k : Nat)
    (ci ck : CurrencyConversion) (hi : message w sites i = some ci)
    (hk : message w sites k = some ck) (hf : ci.From = ck.From) : ci.Ratio = ck.Ratio := by
  obtain ⟨si, _, gi⟩ := message_ok w sites i ci hi
  obtain ⟨sk, _, gk⟩ := message_ok w sites k ck hk
  obtain ⟨site1, resp1, dec1, _, a2, a3, a4⟩ := GetCurrencyConversion_ok w _ _ _ _ gi
  obtain ⟨site2, resp2, dec2, _, b2, b3, b4⟩ := GetCurrencyConversion_ok w _ _ _ _ gk
  have hcur : site1.DefaultCurrencyId = site2.DefaultCurrencyId := by
    rw [a4, b4] at hf
    exact hf
  rw [hcur, hw (Caller.resolver i) (Caller.resolver k), b2] at a2
  have hresp : resp2 = resp1 := Except.ok.inj a2
  rw [hresp, a3] at b3
  have hdec : dec1 = dec2 := Except.ok.inj b3
  rw [a4, b4, hdec]

/-- When values with the same `From` carry the same ratio, the last ratio per currency does
not depend on the order of the values. -/
theorem lastRatioFrom_congr (c : String) (l₁ l₂ : List (Option CurrencyConversion))
    (hmem : ∀ x, x ∈ l₁ ↔ x ∈ l₂)
    (hcoh : ∀ a b, some a ∈ l₁ → some b ∈ l₁ → a.From = b.From → a.Ratio = b.Ratio) :
    lastRatioFrom c l₁ = lastRatioFrom c l₂ := by
  cases h1 : lastRatioFrom c l₁ with
  | none =>
    cases h2 : lastRatioFrom c l₂ with
    | none => rfl
    | some r =>
      exfalso
      obtain ⟨conv, hm, hc, _⟩ := lastRatioFrom_mem c l₂ r h2
      have : ∃ r', lastRatioFrom c l₁ = some r' :=
        (lastRatioFrom_eq_some_iff_exists c l₁).mpr ⟨conv, (hmem _).mpr hm, hc⟩
      rw [h1] at this
      obtain ⟨_, h⟩ := this
      cases h
  | some r =>
    obtain ⟨conv, hm, hc, hr⟩ := lastRatioFrom_mem c l₁ r h1
    have hex : ∃ r', lastRatioFrom c l₂ = some r' :=
      (lastRatioFrom_eq_some_iff_exists c l₂).mpr ⟨conv, (hmem _).mp hm, hc⟩
    obtain ⟨r', h2⟩ := hex
    obtain ⟨conv', hm', hc', hr'⟩ := lastRatioFrom_mem c l₂ r' h2
    have := hcoh conv conv' hm ((hmem _).mpr hm') (by rw [hc, hc'])
    rw [h2, ← hr, ← hr', this]

/-- Under a stable upstream the table does not depend on the order of arrival. -/
theorem collect_same_of_stable (w : Upstream) (hw : w.Stable) (sites : Sites)
    (l₁ l₂ : List Nat) (h₁ : l₁.Perm (List.range sites.length))
    (h₂ : l₂.Perm (List.range sites.length)) :
    Table.Same (HandleResults.collect [] (l₁.map (message w sites)))
      (HandleResults.collect [] (l₂.map (message w sites))) := by
  intro c
  rw [HandleResults.lookup_collect, HandleResults.lookup_collect]
  have hperm : l₁.Perm l₂ := h₁.trans h₂.symm
  have : lastRatioFrom c (l₁.map (message w sites)) =
      lastRatioFrom c (l₂.map (message w sites)) := by
    apply lastRatioFrom_congr
    · intro x
      exact (hperm.map _).mem_iff
    · intro a b ha hb hf
      simp only [List.mem_map] at ha hb
      obtain ⟨i, _, hi⟩ := ha
      obtain ⟨k, _, hk⟩ := hb
      exact stable_ratio w hw sites i k a b hi hk hf
  rw [this]

theorem keys_iff_of_same (t₁ t₂ : Table) (h : Table.Same t₁ t₂) (c : String) :
    c ∈ Table.keys t₁ ↔ c ∈ Table.keys t₂ := by
  rw [Table.mem_keys_iff, Table.mem_keys_iff, h c]

end concurrent
end ApiFetch

namespace ApiFetch
open concurrent

/-! ## The claims -/

/-- C1: when the site list is fetched, the table returned by `GetAllCurrencies`, in the
sequential program and in every run of the concurrent program, has one entry per key and
its keys are exactly the default currencies of the sites whose `GetCurrencyConversion`
succeeded; the concurrent program has a run that returns, and it never returns an error. -/
theorem C1_table_keys (w : Upstream) (sites : Sites) (hg : (GetAllSites w).1 = .ok sites) :
    (∃ t, (single_thread.GetAllCurrencies w).1 = .ok t ∧ (Table.keys t).Nodup ∧
      ∀ c, c ∈ Table.keys t ↔ ResolvedCurrency w sites c) ∧
    (∃ sched s t, exec w sched State.init = some s ∧ s.main = MainPc.returned (.ok t)) ∧
    (∀ sched s r, exec w sched State.init = some s → s.main = MainPc.returned r →
      ∃ t, r = .ok t ∧ (Table.keys t).Nodup ∧
        ∀ c, c ∈ Table.keys t ↔ ResolvedCurrency w sites c) := by
  refine ⟨?_, ?_, ?_⟩
  · refine ⟨HandleResults.collect [] ((List.range sites.length).map (message w sites)),
      ?_, ?_, ?_⟩
    · rw [single_thread.GetAllCurrencies_eq, hg]
    · exact HandleResults.collect_keys_nodup _ _ (by simp [Table.keys])
    · intro c
      exact mem_keys_collect_iff w sites _ (List.Perm.refl _) c
  · obtain ⟨s, t, h1, h2, _, _⟩ := inOrderSchedule_spec w sites hg
    exact ⟨_, s, t, h1, h2⟩
  · intro sched s r hrun hr
    have hinv := Reachable.inv w s ⟨sched, hrun⟩
    obtain ⟨t, rfl⟩ := returned_is_ok w sites s r hg hinv hr
    obtain ⟨_, _, _, _, _, g6, g7, g8, _⟩ := hinv.returned_ok w s t hr
    have hs := sites_eq_of_returned w sites s t hg hinv hr
    rw [hs] at g6 g7
    refine ⟨t, rfl, ?_, ?_⟩
    · rw [g8, g7]
      exact HandleResults.collect_keys_nodup _ _ (by simp [Table.keys])
    · intro c
      rw [g8, g7]
      exact mem_keys_collect_iff w sites _ g6 c

/-- C1, on the sites MLA (ARS, 0.0025) and MLB (BRL, 0.20): both programs return the
table with the entries ARS: 0.0025 and BRL: 0.20. -/
theorem C1_table_keys_witness :
    (single_thread.GetAllCurrencies sampleTwoSites).1 = .ok [("ARS", 0.0025), ("BRL", 0.20)] ∧
    (exec sampleTwoSites (inOrderSchedule 2) State.init).map State.main =
      some (MainPc.returned (.ok [("ARS", 0.0025), ("BRL", 0.20)])) ∧
    ((∃ t, (single_thread.GetAllCurrencies sampleTwoSites).1 = .ok t ∧ (Table.keys t).Nodup ∧
      ∀ c, c ∈ Table.keys t ↔
        ResolvedCurrency sampleTwoSites [⟨"MLA", "Argentina"⟩, ⟨"MLB", "Brasil"⟩] c) ∧
    (∃ sched s t, exec sampleTwoSites sched State.init = some s ∧
      s.main = MainPc.returned (.ok t)) ∧
    (∀ sched s r, exec sampleTwoSites sched State.init = some s → s.main = MainPc.returned r →
      ∃ t, r = .ok t ∧ (Table.keys t).Nodup ∧
        ∀ c, c ∈ Table.keys t ↔
          ResolvedCurrency sampleTwoSites [⟨"MLA", "Argentina"⟩, ⟨"MLB", "Brasil"⟩] c)) :=
  ⟨rfl, rfl, C1_table_keys sampleTwoSites [⟨"MLA", "Argentina"⟩, ⟨"MLB", "Brasil"⟩] rfl⟩

/-- C2: if the site-list fetch fails, by a transport error or by a decode error, both
programs return that error and no table, having requested the site list only; in the
concurrent program no state of any run has a `ProcessAllSiteIds` goroutine, a launched
`HandleResults`, a `wg.Add` or a request other than the one of the site list. -/
theorem C2_site_list_failure (w : Upstream) (err : Error)
    (h : w.Get Caller.aggregator SITES_ALL_URL = .error err ∨
      ∃ resp, w.Get Caller.aggregator SITES_ALL_URL = .ok resp ∧
        w.UnmarshalSites resp.Body = .error err) :
    single_thread.GetAllCurrencies w = (.error err, [SITES_ALL_URL]) ∧
    exec w [Actor.main] State.init =
      some { State.init with main := MainPc.returned (.error err),
                             requests := [SITES_ALL_URL] } ∧
    (∀ sched s, exec w sched State.init = some s →
      s.procs = [] ∧ s.handler = HandlerPc.notStarted ∧ s.adds = 0 ∧ s.arrivals = [] ∧
      (s.requests = [] ∨ s.requests = [SITES_ALL_URL]) ∧
      ∀ r, s.main = MainPc.returned r → r = .error err) := by
  have hg : GetAllSites w = (.error err, [SITES_ALL_URL]) := by
    unfold GetAllSites
    rcases h with h | ⟨resp, h1, h2⟩
    · simp only [h]
    · simp only [h1, h2]
  refine ⟨?_, ?_, ?_⟩
  · simp only [single_thread.GetAllCurrencies, hg]
  · simp only [exec, step, stepMain, State.init, hg, Option.some_bind, List.nil_append]
  · intro sched s hrun
    have hinv := Reachable.inv w s ⟨sched, hrun⟩
    have hg1 : (GetAllSites w).1 = .error err := by rw [hg]
    have hm := hinv.main_ok
    have key : Idle s ∧ (s.requests = [] ∨ s.requests = [SITES_ALL_URL]) := by
      cases hs : s.main with
      | getAllSites => rw [hs] at hm; simp only [MainOk] at hm; exact ⟨hm.1, Or.inl hm.2.2⟩
      | goHandleResults => rw [hs] at hm; simp only [MainOk] at hm; rw [hg1] at hm; cases hm.2.1
      | wgAdd i => rw [hs] at hm; simp only [MainOk, Started] at hm; rw [hg1] at hm; cases hm.1.1
      | goProcess i =>
        rw [hs] at hm; simp only [MainOk, Started] at hm; rw [hg1] at hm; cases hm.1.1
      | wgWait => rw [hs] at hm; simp only [MainOk, Started] at hm; rw [hg1] at hm; cases hm.1.1
      | returned r =>
        rw [hs] at hm
        cases r with
        | ok t => simp only [MainOk, Started] at hm; rw [hg1] at hm; cases hm.1.1
        | error e => simp only [MainOk] at hm; exact ⟨hm.1, Or.inr hm.2.2.2⟩
    obtain ⟨⟨k1, k2, k3, _, _, _, k7, _⟩, k9⟩ := key
    exact ⟨k2, k1, k3, k7, k9, fun r hr => returned_is_error w err s r hg1 hinv hr⟩

/-- C2, when the site list cannot be reached. -/
theorem C2_site_list_failure_witness :
    single_thread.GetAllCurrencies sampleSiteListDown =
      (.error ⟨"connection refused"⟩, [SITES_ALL_URL]) ∧
    exec sampleSiteListDown [Actor.main] State.init =
      some { State.init with main := MainPc.returned (.error ⟨"connection refused"⟩),
                             requests := [SITES_ALL_URL] } ∧
    (∀ sched s, exec sampleSiteListDown sched State.init = some s →
      s.procs = [] ∧ s.handler = HandlerPc.notStarted ∧ s.adds = 0 ∧ s.arrivals = [] ∧
      (s.requests = [] ∨ s.requests = [SITES_ALL_URL]) ∧
      ∀ r, s.main = MainPc.returned r → r = .error ⟨"connection refused"⟩) :=
  C2_site_list_failure sampleSiteListDown ⟨"connection refused"⟩ (Or.inl rfl)

/-- C4 as stated fails: with every answer of status 500 and a body of the expected
shape, `GetAllSites`, `GetSite` and `GetCurrencyConversion` succeed and `GetAllCurrencies`
returns a table. -/
theorem C4_counterexample :
    sampleStatus500.Get Caller.aggregator SITES_ALL_URL = .ok ⟨500, bodySitesAB⟩ ∧
    Response.IsSuccess ⟨500, bodySitesAB⟩ = false ∧
    (GetAllSites sampleStatus500).1 = .ok [⟨"MLA", "Argentina"⟩, ⟨"MLB", "Brasil"⟩] ∧
    sampleStatus500.Get (Caller.resolver 0) (SITES_SEARCH_URL "MLA") =
      .ok ⟨500, bodySite "MLA" "ARS"⟩ ∧
    (GetSite sampleStatus500 (Caller.resolver 0) "MLA").1 = .ok ⟨"MLA", "", "", "ARS"⟩ ∧
    sampleStatus500.Get (Caller.resolver 0) (CURRENCIES_CONVERSION_URL "ARS" "USD") =
      .ok ⟨500, "\x7b\"ratio\":0.0025\x7d"⟩ ∧
    (GetCurrencyConversion sampleStatus500 (Caller.resolver 0) "MLA" "USD").1 =
      .ok ⟨"ARS", "USD", 0.0025⟩ ∧
    (single_thread.GetAllCurrencies sampleStatus500).1 =
      .ok [("ARS", 0.0025), ("BRL", 0.20)] ∧
    (exec sampleStatus500 (inOrderSchedule 2) State.init).map State.main =
      some (MainPc.returned (.ok [("ARS", 0.0025), ("BRL", 0.20)])) :=
  ⟨rfl, rfl, rfl, rfl, rfl, rfl, rfl, rfl, rfl⟩

/-- C4, amended: the status of a response is not consulted.  `GetAllSites` and `GetSite`
return the transport error when the GET fails and otherwise what the decoder makes of the
body; `GetCurrencyConversion` returns the error of `GetSite`, or the transport error of
the conversion GET, or the decoder's error, and otherwise the decoded conversion with
`From` and `To` set.  So each of the three returns an error exactly when the transport
fails or the body does not decode, and the results are the same when every status code is
replaced by any other.  When the body of the site list does not decode, both programs
return that error and no table. -/
theorem C4_status_not_consulted (w : Upstream) (c : Caller) (siteId target : String) :
    ((GetAllSites w).1 =
      match w.Get Caller.aggregator SITES_ALL_URL with
      | .error err => .error err
      | .ok resp => w.UnmarshalSites resp.Body) ∧
    ((GetSite w c siteId).1 =
      match w.Get c (SITES_SEARCH_URL siteId) with
      | .error err => .error err
      | .ok resp => w.UnmarshalSite resp.Body) ∧
    ((GetCurrencyConversion w c siteId target).1 =
      match (GetSite w c siteId).1 with
      | .error err => .error err
      | .ok site =>
        match w.Get c (CURRENCIES_CONVERSION_URL site.DefaultCurrencyId target) with
        | .error err => .error err
        | .ok resp =>
          match w.UnmarshalConversion resp.Body with
          | .error err => .error err
          | .ok conversion =>
            .ok { conversion with From := site.DefaultCurrencyId, To := target }) ∧
    ((∃ err, (GetAllSites w).1 = .error err) ↔
      (∃ err, w.Get Caller.aggregator SITES_ALL_URL = .error err) ∨
      ∃ resp err, w.Get Caller.aggregator SITES_ALL_URL = .ok resp ∧
        w.UnmarshalSites resp.Body = .error err) ∧
    ((∃ err, (GetSite w c siteId).1 = .error err) ↔
      (∃ err, w.Get c (SITES_SEARCH_URL siteId) = .error err) ∨
      ∃ resp err, w.Get c (SITES_SEARCH_URL siteId) = .ok resp ∧
        w.UnmarshalSite resp.Body = .error err) ∧
    ((∃ err, (GetCurrencyConversion w c siteId target).1 = .error err) ↔
      (∃ err, (GetSite w c siteId).1 = .error err) ∨
      (∃ site err, (GetSite w c siteId).1 = .ok site ∧
        w.Get c (CURRENCIES_CONVERSION_URL site.DefaultCurrencyId target) = .error err) ∨
      ∃ site resp err, (GetSite w c siteId).1 = .ok site ∧
        w.Get c (CURRENCIES_CONVERSION_URL site.DefaultCurrencyId target) = .ok resp ∧
        w.UnmarshalConversion resp.Body = .error err) ∧
    (∀ status, GetAllSites (w.withStatus status) = GetAllSites w ∧
      GetSite (w.withStatus status) c siteId = GetSite w c siteId ∧
      GetCurrencyConversion (w.withStatus status) c siteId target =
        GetCurrencyConversion w c siteId target) ∧
    (∀ resp err, w.Get Caller.aggregator SITES_ALL_URL = .ok resp →
      w.UnmarshalSites resp.Body = .error err →
      (single_thread.GetAllCurrencies w).1 = .error err ∧
      (exec w [Actor.main] State.init).map State.main = some (MainPc.returned (.error err)) ∧
      ∀ sched s r, exec w sched State.init = some s → s.main = MainPc.returned r →
        r = .error err) := by
  have hsites : (GetAllSites w).1 =
      match w.Get Caller.aggregator SITES_ALL_URL with
      | .error err => .error err
      | .ok resp => w.UnmarshalSites resp.Body := by
    unfold GetAllSites
    cases w.Get Caller.aggregator SITES_ALL_URL with
    | error e => rfl
    | ok resp =>
      simp only
      cases w.UnmarshalSites resp.Body <;> rfl
  have hsite : ∀ (v : Upstream), (GetSite v c siteId).1 =
      match v.Get c (SITES_SEARCH_URL siteId) with
      | .error err => .error err
      | .ok resp => v.UnmarshalSite resp.Body := by
    intro v
    unfold GetSite
    cases v.Get c (SITES_SEARCH_URL siteId) with
    | error e => rfl
    | ok resp =>
      simp only
      cases v.UnmarshalSite resp.Body <;> rfl
  have hconv : (GetCurrencyConversion w c siteId target).1 =
      match (GetSite w c siteId).1 with
      | .error err => .error err
      | .ok site =>
        match w.Get c (CURRENCIES_CONVERSION_URL site.DefaultCurrencyId target) with
        | .error err => .error err
        | .ok resp =>
          match w.UnmarshalConversion resp.Body with
          | .error err => .error err
          | .ok conversion =>
            .ok { conversion with From := site.DefaultCurrencyId, To := target } := by
    unfold GetCurrencyConversion
    cases GetSite w c siteId with
    | mk res reqs =>
      cases res with
      | error e => rfl
      | ok site =>
        simp only
        cases w.Get c (CURRENCIES_CONVERSION_URL site.DefaultCurrencyId target) with
        | error e => rfl
        | ok resp =>
          simp only
          cases w.UnmarshalConversion resp.Body <;> rfl
  have hstSites : ∀ status, GetAllSites (w.withStatus status) = GetAllSites w := by
    intro status
    unfold GetAllSites
    simp only [Upstream.withStatus]
    cases w.Get Caller.aggregator SITES_ALL_URL <;> rfl
  have hstSite : ∀ status, GetSite (w.withStatus status) c siteId = GetSite w c siteId := by
    intro status
    unfold GetSite
    simp only [Upstream.withStatus]
    cases w.Get c (SITES_SEARCH_URL siteId) <;> rfl
  have hstConv : ∀ status, GetCurrencyConversion (w.withStatus status) c siteId target =
      GetCurrencyConversion w c siteId target := by
    intro status
    unfold GetCurrencyConversion
    rw [hstSite status]
    cases GetSite w c siteId with
    | mk res reqs =>
      cases res with
      | error e => rfl
      | ok site =>
        simp only [Upstream.withStatus]
        cases w.Get c (CURRENCIES_CONVERSION_URL site.DefaultCurrencyId target) <;> rfl
  refine ⟨hsites, hsite w, hconv, ?_, ?_, ?_, fun status =>
    ⟨hstSites status, hstSite status, hstConv status⟩, ?_⟩
  · rw [hsites]
    cases hget : w.Get Caller.aggregator SITES_ALL_URL with
    | error e => simp
    | ok resp => simp
  · rw [hsite w]
    cases hget : w.Get c (SITES_SEARCH_URL siteId) with
    | error e => simp
    | ok resp => simp
  · rw [hconv]
    cases hs : (GetSite w c siteId).1 with
    | error e => simp
    | ok site =>
      cases hget : w.Get c (CURRENCIES_CONVERSION_URL site.DefaultCurrencyId target) with
      | error e => simp [hget]
      | ok resp =>
        cases hd : w.UnmarshalConversion resp.Body with
        | error e => simp [hget, hd]
        | ok conversion => simp [hget, hd]
  · intro resp err h1 h2
    have hg : GetAllSites w = (.error err, [SITES_ALL_URL]) := by
      unfold GetAllSites
      simp only [h1, h2]
    have hg1 : (GetAllSites w).1 = .error err := by rw [hg]
    refine ⟨?_, ?_, ?_⟩
    · simp only [single_thread.GetAllCurrencies, hg]
    · simp only [exec, step, stepMain, State.init, hg, Option.some_bind, Option.map_some']
    · intro sched s r hrun hr
      exact returned_is_error w err s r hg1 (Reachable.inv w s ⟨sched, hrun⟩) hr

/-- C4, amended, on three answers of the site list: HTTP 500 with an error body is an
error because the body does not decode as a site list; a refused connection is an error;
HTTP 500 with a site list as body is none. -/
theorem C4_status_not_consulted_witness :
    sampleSiteList500.Get Caller.aggregator SITES_ALL_URL = .ok ⟨500, bodyFailure⟩ ∧
    (∃ err, (GetAllSites sampleSiteList500).1 = .error err) ∧
    (∃ err, (GetAllSites sampleSiteListDown).1 = .error err) ∧
    (¬ ∃ err, (GetAllSites sampleStatus500).1 = .error err) ∧
    GetCurrencyConversion (sampleTwoSites.withStatus 500) (Caller.resolver 0) "MLA" "USD" =
      GetCurrencyConversion sampleTwoSites (Caller.resolver 0) "MLA" "USD" ∧
    (single_thread.GetAllCurrencies sampleSiteList500).1 =
      .error ⟨"json: cannot unmarshal object into Go value of type main.Sites"⟩ ∧
    (exec sampleSiteList500 [Actor.main] State.init).map State.main =
      some (MainPc.returned
        (.error ⟨"json: cannot unmarshal object into Go value of type main.Sites"⟩)) ∧
    ∀ sched s r, exec sampleSiteList500 sched State.init = some s →
      s.main = MainPc.returned r →
      r = .error ⟨"json: cannot unmarshal object into Go value of type main.Sites"⟩ :=
  ⟨rfl,
    (C4_status_not_consulted sampleSiteList500 Caller.aggregator "MLA" "USD").2.2.2.1.mpr
      (Or.inr ⟨⟨500, bodyFailure⟩,
        ⟨"json: cannot unmarshal object into Go value of type main.Sites"⟩, rfl, rfl⟩),
    (C4_status_not_consulted sampleSiteListDown Caller.aggregator "MLA" "USD").2.2.2.1.mpr
      (Or.inl ⟨⟨"connection refused"⟩, rfl⟩),
    fun h =>
      ((C4_status_not_consulted sampleStatus500 Caller.aggregator "MLA" "USD").2.2.2.1.mp
        h).elim (fun ⟨_, h1⟩ => by cases h1)
        (fun ⟨resp, err, h1, h2⟩ => by
          cases (Except.ok.inj h1 : (⟨500, bodySitesAB⟩ : Response) = resp)
          cases h2),
    ((C4_status_not_consulted sampleTwoSites (Caller.resolver 0) "MLA" "USD").2.2.2.2.2.2.1
      500).2.2,
    (C4_status_not_consulted sampleSiteList500 Caller.aggregator "MLA" "USD").2.2.2.2.2.2.2
      ⟨500, bodyFailure⟩ ⟨"json: cannot unmarshal object into Go value of type main.Sites"⟩
      rfl rfl⟩

/-- C6: `GetCurrencyConversion(siteId, to)` succeeds exactly when `GetSite(siteId)`, the
GET of the conversion from the site's `DefaultCurrencyId` to `to`, and the decoding of
its body succeed; it then returns `From` equal to that `DefaultCurrencyId`, `To` equal to
`to` and the decoded ratio, whatever `From` and `To` the decoded body carried, having
requested the site and then the conversion with these two currencies.  A failed `GetSite`
is returned as it is, with no conversion, and the only request issued is the one of
`GetSite`. -/
theorem C6_normalisation (w : Upstream) (c : Caller) (siteId target : String) :
    (∀ conv, (GetCurrencyConversion w c siteId target).1 = .ok conv ↔
      ∃ site resp decoded, (GetSite w c siteId).1 = .ok site ∧
        w.Get c (CURRENCIES_CONVERSION_URL site.DefaultCurrencyId target) = .ok resp ∧
        w.UnmarshalConversion resp.Body = .ok decoded ∧
        conv = ⟨site.DefaultCurrencyId, target, decoded.Ratio⟩) ∧
    (∀ conv, (GetCurrencyConversion w c siteId target).1 = .ok conv →
      ∃ site resp decoded, (GetSite w c siteId).1 = .ok site ∧
        w.Get c (CURRENCIES_CONVERSION_URL site.DefaultCurrencyId target) = .ok resp ∧
        w.UnmarshalConversion resp.Body = .ok decoded ∧
        conv.From = site.DefaultCurrencyId ∧ conv.To = target ∧
        conv.Ratio = decoded.Ratio) ∧
    (∀ site resp decoded, (GetSite w c siteId).1 = .ok site →
      w.Get c (CURRENCIES_CONVERSION_URL site.DefaultCurrencyId target) = .ok resp →
      w.UnmarshalConversion resp.Body = .ok decoded →
      GetCurrencyConversion w c siteId target =
        (.ok ⟨site.DefaultCurrencyId, target, decoded.Ratio⟩,
          [SITES_SEARCH_URL siteId,
            CURRENCIES_CONVERSION_URL site.DefaultCurrencyId target])) ∧
    (∀ site, (GetSite w c siteId).1 = .ok site →
      (GetCurrencyConversion w c siteId target).2 =
        [SITES_SEARCH_URL siteId,
          CURRENCIES_CONVERSION_URL site.DefaultCurrencyId target]) ∧
    (∀ err, (GetSite w c siteId).1 = .error err →
      GetCurrencyConversion w c siteId target = (.error err, [SITES_SEARCH_URL siteId])) := by
  have hreq := GetSite_requests w c siteId
  have hfull : ∀ site resp decoded, (GetSite w c siteId).1 = .ok site →
      w.Get c (CURRENCIES_CONVERSION_URL site.DefaultCurrencyId target) = .ok resp →
      w.UnmarshalConversion resp.Body = .ok decoded →
      GetCurrencyConversion w c siteId target =
        (.ok ⟨site.DefaultCurrencyId, target, decoded.Ratio⟩,
          [SITES_SEARCH_URL siteId,
            CURRENCIES_CONVERSION_URL site.DefaultCurrencyId target]) := by
    intro site resp decoded h1 h2 h3
    unfold GetCurrencyConversion
    cases hs : GetSite w c siteId with
    | mk res reqs =>
      rw [hs] at h1 hreq
      simp only at h1 hreq
      subst h1 hreq
      simp only [h2, h3, List.singleton_append]
  refine ⟨?_, ?_, hfull, ?_, ?_⟩
  · intro conv
    constructor
    · intro h
      obtain ⟨site, resp, decoded, h1, h2, h3, h4⟩ :=
        GetCurrencyConversion_ok w c siteId target conv h
      exact ⟨site, resp, decoded, h1, h2, h3, by rw [h4]⟩
    · rintro ⟨site, resp, decoded, h1, h2, h3, h4⟩
      rw [hfull site resp decoded h1 h2 h3, h4]
  · intro conv h
    obtain ⟨site, resp, decoded, h1, h2, h3, h4⟩ :=
      GetCurrencyConversion_ok w c siteId target conv h
    refine ⟨site, resp, decoded, h1, h2, h3, ?_, ?_, ?_⟩ <;> rw [h4]
  · intro site h1
    unfold GetCurrencyConversion
    cases hs : GetSite w c siteId with
    | mk res reqs =>
      rw [hs] at h1 hreq
      simp only at h1 hreq
      subst h1 hreq
      simp only
      cases w.Get c (CURRENCIES_CONVERSION_URL site.DefaultCurrencyId target) with
      | error e => rfl
      | ok resp =>
        simp only
        cases w.UnmarshalConversion resp.Body <;> rfl
  · intro err h
    exact GetCurrencyConversion_of_GetSite_error w c siteId target err h

/-- C6, on the site MLA when the answer to the conversion request carries `from: EUR`
and `to: GBP`: `GetCurrencyConversion` returns ARS, USD and the decoded ratio after the
two requests; and on the sample whose site detail of MLA cannot be reached. -/
theorem C6_normalisation_witness :
    (GetSite sampleForeignFields (Caller.resolver 0) "MLA").1 = .ok ⟨"MLA", "", "", "ARS"⟩ ∧
    sampleForeignFields.Get (Caller.resolver 0) (CURRENCIES_CONVERSION_URL "ARS" "USD") =
      .ok ⟨200, bodyForeignFields⟩ ∧
    sampleForeignFields.UnmarshalConversion bodyForeignFields = .ok ⟨"EUR", "GBP", 0.0025⟩ ∧
    GetCurrencyConversion sampleForeignFields (Caller.resolver 0) "MLA" "USD" =
      (.ok ⟨"ARS", "USD", 0.0025⟩,
        ["https://api.mercadolibre.com/sites/MLA",
          "https://api.mercadolibre.com/currency_conversions/search?from=ARS&to=USD"]) ∧
    GetCurrencyConversion sampleOneFails (Caller.resolver 0) "MLA" "USD" =
      (.error ⟨"connection reset by peer"⟩, ["https://api.mercadolibre.com/sites/MLA"]) :=
  ⟨rfl, rfl, rfl,
    (C6_normalisation sampleForeignFields (Caller.resolver 0) "MLA" "USD").2.2.1
      ⟨"MLA", "", "", "ARS"⟩ ⟨200, bodyForeignFields⟩ ⟨"EUR", "GBP", 0.0025⟩ rfl rfl rfl,
    (C6_normalisation sampleOneFails (Caller.resolver 0) "MLA" "USD").2.2.2.2
      ⟨"connection reset by peer"⟩ rfl⟩

end ApiFetch

namespace ApiFetch
open concurrent

/-- The table a run returns is what `HandleResults` builds from the values of all the
sites, taken in the order of arrival. -/
theorem concurrent.Returns.table_eq (w : Upstream) (sites : Sites) (sched : List Actor)
    (t : Table) (arrivals : List Nat) (hg : (GetAllSites w).1 = .ok sites)
    (h : Returns w sched (.ok t) arrivals) :
    arrivals.Perm (List.range sites.length) ∧
      t = HandleResults.collect [] (arrivals.map (message w sites)) := by
  obtain ⟨s, hrun, hr, ha⟩ := h
  have hinv := Reachable.inv w s ⟨sched, hrun⟩
  obtain ⟨_, _, _, _, _, g6, g7, g8, _⟩ := hinv.returned_ok w s t hr
  have hs := sites_eq_of_returned w sites s t hg hinv hr
  rw [hs, ha] at g6 g7
  exact ⟨g6, by rw [g8, g7]⟩

theorem single_thread.GetAllCurrencies_ok (w : Upstream) (sites : Sites)
    (hg : (GetAllSites w).1 = .ok sites) :
    (single_thread.GetAllCurrencies w).1 =
      .ok (HandleResults.collect [] ((List.range sites.length).map (message w sites))) := by
  rw [single_thread.GetAllCurrencies_eq, hg]

/-- C3: when the site list is fetched, exactly one site (the `j`-th) fails to resolve and the
default currencies of the sites are pairwise distinct, both programs return a nil error
and a table with exactly `N - 1` entries; the keys are the default currencies of the other
sites, and the default currency of the failed site (if `GetSite` got that far) is not a
key.  The concurrent program has a run that returns. -/
theorem C3_failure_contained (w : Upstream) (sites : Sites) (j : Nat)
    (hg : (GetAllSites w).1 = .ok sites)
    (hone : (List.range sites.length).filter (fun k => !(resolves w sites k)) = [j])
    (hdist : ((List.range sites.length).filterMap (defaultCurrency w sites)).Nodup) :
    1 ≤ sites.length ∧
    (∃ t, (single_thread.GetAllCurrencies w).1 = .ok t ∧ t.length = sites.length - 1 ∧
      (∀ c, defaultCurrency w sites j = some c → c ∉ Table.keys t) ∧
      ∀ c, c ∈ Table.keys t ↔
        ∃ k, k ≠ j ∧ resolves w sites k = true ∧ defaultCurrency w sites k = some c) ∧
    (∃ sched s t, exec w sched State.init = some s ∧ s.main = MainPc.returned (.ok t)) ∧
    (∀ sched s r, exec w sched State.init = some s → s.main = MainPc.returned r →
      ∃ t, r = .ok t ∧ t.length = sites.length - 1 ∧
        (∀ c, defaultCurrency w sites j = some c → c ∉ Table.keys t) ∧
        ∀ c, c ∈ Table.keys t ↔
          ∃ k, k ≠ j ∧ resolves w sites k = true ∧ defaultCurrency w sites k = some c) := by
  refine ⟨?_, ?_, ?_, ?_⟩
  · have hj : j ∈ (List.range sites.length).filter (fun k => !(resolves w sites k)) := by
      rw [hone]; simp
    simp only [List.mem_filter, List.mem_range] at hj
    omega
  · exact ⟨_, single_thread.GetAllCurrencies_ok w sites hg,
      collect_one_failure w sites j _ (List.Perm.refl _) hone hdist⟩
  · obtain ⟨s, t, h1, h2, _, _⟩ := inOrderSchedule_spec w sites hg
    exact ⟨_, s, t, h1, h2⟩
  · intro sched s r hrun hr
    have hinv := Reachable.inv w s ⟨sched, hrun⟩
    obtain ⟨t, rfl⟩ := returned_is_ok w sites s r hg hinv hr
    obtain ⟨hp, ht⟩ := Returns.table_eq w sites sched t s.arrivals hg ⟨s, hrun, hr, rfl⟩
    refine ⟨t, rfl, ?_⟩
    rw [ht]
    exact collect_one_failure w sites j _ hp hone hdist

/-- C3, on two sites of which the first fails in `GetSite`: the table has exactly one
entry, the one of the surviving site. -/
theorem C3_failure_contained_witness :
    (single_thread.GetAllCurrencies sampleOneFails).1 = .ok [("BRL", 0.20)] ∧
    (exec sampleOneFails (inOrderSchedule 2) State.init).map State.main =
      some (MainPc.returned (.ok [("BRL", 0.20)])) ∧
    (exec sampleOneFails reverseSchedule State.init).map State.main =
      some (MainPc.returned (.ok [("BRL", 0.20)])) ∧
    (1 ≤ 2 ∧
    (∃ t, (single_thread.GetAllCurrencies sampleOneFails).1 = .ok t ∧ t.length = 2 - 1 ∧
      (∀ c, defaultCurrency sampleOneFails [⟨"MLA", "Argentina"⟩, ⟨"MLB", "Brasil"⟩] 0 = some c →
        c ∉ Table.keys t) ∧
      ∀ c, c ∈ Table.keys t ↔
        ∃ k, k ≠ 0 ∧
          resolves sampleOneFails [⟨"MLA", "Argentina"⟩, ⟨"MLB", "Brasil"⟩] k = true ∧
          defaultCurrency sampleOneFails [⟨"MLA", "Argentina"⟩, ⟨"MLB", "Brasil"⟩] k = some c) ∧
    (∃ sched s t, exec sampleOneFails sched State.init = some s ∧
      s.main = MainPc.returned (.ok t)) ∧
    (∀ sched s r, exec sampleOneFails sched State.init = some s → s.main = MainPc.returned r →
      ∃ t, r = .ok t ∧ t.length = 2 - 1 ∧
        (∀ c, defaultCurrency sampleOneFails [⟨"MLA", "Argentina"⟩, ⟨"MLB", "Brasil"⟩] 0 = some c →
          c ∉ Table.keys t) ∧
        ∀ c, c ∈ Table.keys t ↔
          ∃ k, k ≠ 0 ∧
            resolves sampleOneFails [⟨"MLA", "Argentina"⟩, ⟨"MLB", "Brasil"⟩] k = true ∧
            defaultCurrency sampleOneFails [⟨"MLA", "Argentina"⟩, ⟨"MLB", "Brasil"⟩] k = some c)) :=
  ⟨rfl, rfl, rfl,
    C3_failure_contained sampleOneFails [⟨"MLA", "Argentina"⟩, ⟨"MLB", "Brasil"⟩] 0 rfl rfl
      (by decide)⟩

/-- C5: last write wins.  For every sequence of received values, the value `HandleResults`
leaves under a currency `c` is the ratio of the last non-nil value whose `From` is `c`
(and there is no entry when there is none).  So the table of every run of the concurrent
program is determined by the order of arrival in this way, the table of the sequential
program by the order of the site list; and when two distinct sites resolve to the same
currency, the table has exactly one entry for it, with the ratio one of the sites with
that currency resolved to. -/
theorem C5_last_write_wins (w : Upstream) (sites : Sites)
    (hg : (GetAllSites w).1 = .ok sites) :
    (∀ (received : List (Option CurrencyConversion)) (c : String),
      Table.lookup (HandleResults.collect [] received) c = lastRatioFrom c received) ∧
    (∀ sched t arrivals, Returns w sched (.ok t) arrivals →
      arrivals.Perm (List.range sites.length) ∧
      ∀ c, Table.lookup t c = lastRatioFrom c (arrivals.map (message w sites))) ∧
    (∃ t, (single_thread.GetAllCurrencies w).1 = .ok t ∧
      ∀ c, Table.lookup t c = lastRatioFrom c ((List.range sites.length).map (message w sites))) ∧
    (∀ i k ci ck, i ≠ k → message w sites i = some ci → message w sites k = some ck →
      ci.From = ck.From →
      (∀ sched t arrivals, Returns w sched (.ok t) arrivals →
        (Table.keys t).count ci.From = 1 ∧
        ∃ q cq, message w sites q = some cq ∧ cq.From = ci.From ∧
          Table.lookup t ci.From = some cq.Ratio) ∧
      (∃ t, (single_thread.GetAllCurrencies w).1 = .ok t ∧
        (Table.keys t).count ci.From = 1 ∧
        ∃ q cq, message w sites q = some cq ∧ cq.From = ci.From ∧
          Table.lookup t ci.From = some cq.Ratio)) := by
  have hlook : ∀ (received : List (Option CurrencyConversion)) (c : String),
      Table.lookup (HandleResults.collect [] received) c = lastRatioFrom c received := by
    intro received c
    rw [HandleResults.lookup_collect]
    cases lastRatioFrom c received <;> rfl
  have hshared : ∀ (l : List Nat), l.Perm (List.range sites.length) →
      ∀ i ci, message w sites i = some ci →
        (Table.keys (HandleResults.collect [] (l.map (message w sites)))).count ci.From = 1 ∧
        ∃ q cq, message w sites q = some cq ∧ cq.From = ci.From ∧
          Table.lookup (HandleResults.collect [] (l.map (message w sites))) ci.From
            = some cq.Ratio := by
    intro l hl i ci hi
    have hmem : some ci ∈ l.map (message w sites) :=
      (mem_map_message w sites l hl ci).mpr ⟨i, hi⟩
    have hkey : ci.From ∈ Table.keys (HandleResults.collect [] (l.map (message w sites))) :=
      (HandleResults.mem_keys_collect _ _).mpr ⟨ci, hmem, rfl⟩
    have hnd : (Table.keys (HandleResults.collect [] (l.map (message w sites)))).Nodup :=
      HandleResults.collect_keys_nodup _ _ (by simp [Table.keys])
    refine ⟨List.count_eq_one_of_mem hnd hkey, ?_⟩
    obtain ⟨v, hv⟩ := (Table.mem_keys_iff _ _).mp hkey
    rw [hlook] at hv
    obtain ⟨cq, hq1, hq2, hq3⟩ := lastRatioFrom_mem _ _ _ hv
    obtain ⟨q, hq⟩ := (mem_map_message w sites l hl cq).mp hq1
    exact ⟨q, cq, hq, hq2, by rw [hlook, hv, hq3]⟩
  refine ⟨hlook, ?_, ?_, ?_⟩
  · intro sched t arrivals h
    obtain ⟨hp, ht⟩ := Returns.table_eq w sites sched t arrivals hg h
    exact ⟨hp, fun c => by rw [ht, hlook]⟩
  · exact ⟨_, single_thread.GetAllCurrencies_ok w sites hg, fun c => hlook _ c⟩
  · intro i k ci ck _ hi _ _
    refine ⟨?_, ?_⟩
    · intro sched t arrivals h
      obtain ⟨hp, ht⟩ := Returns.table_eq w sites sched t arrivals hg h
      rw [ht]
      exact hshared arrivals hp i ci hi
    · exact ⟨_, single_thread.GetAllCurrencies_ok w sites hg,
        hshared _ (List.Perm.refl _) i ci hi⟩

/-- C5, on two sites that share the currency USD and resolve to the ratios 1 and 1.01: the
table has the single entry USD, with the ratio of the value that arrived last. -/
theorem C5_last_write_wins_witness :
    Returns sampleSharedDrift (inOrderSchedule 2) (.ok [("USD", 1.01)]) [0, 1] ∧
    Returns sampleSharedDrift reverseSchedule (.ok [("USD", 1)]) [1, 0] ∧
    (single_thread.GetAllCurrencies sampleSharedDrift).1 = .ok [("USD", 1.01)] ∧
    ((Table.keys [("USD", 1.01)]).count "USD" = 1 ∧
      ∃ q cq, message sampleSharedDrift [⟨"MEC", "Ecuador"⟩, ⟨"MSV", "El Salvador"⟩] q = some cq ∧
        cq.From = "USD" ∧ Table.lookup [("USD", 1.01)] "USD" = some cq.Ratio) ∧
    ((Table.keys [("USD", 1)]).count "USD" = 1 ∧
      ∃ q cq, message sampleSharedDrift [⟨"MEC", "Ecuador"⟩, ⟨"MSV", "El Salvador"⟩] q = some cq ∧
        cq.From = "USD" ∧ Table.lookup [("USD", 1)] "USD" = some cq.Ratio) :=
  ⟨⟨_, rfl, rfl, rfl⟩, ⟨_, rfl, rfl, rfl⟩, rfl,
    ((C5_last_write_wins sampleSharedDrift [⟨"MEC", "Ecuador"⟩, ⟨"MSV", "El Salvador"⟩]
      rfl).2.2.2 0 1 ⟨"USD", "USD", 1⟩ ⟨"USD", "USD", 1.01⟩ (by decide) rfl rfl rfl).1
      (inOrderSchedule 2) [("USD", 1.01)] [0, 1] ⟨_, rfl, rfl, rfl⟩,
    ((C5_last_write_wins sampleSharedDrift [⟨"MEC", "Ecuador"⟩, ⟨"MSV", "El Salvador"⟩]
      rfl).2.2.2 0 1 ⟨"USD", "USD", 1⟩ ⟨"USD", "USD", 1.01⟩ (by decide) rfl rfl rfl).1
      reverseSchedule [("USD", 1)] [1, 0] ⟨_, rfl, rfl, rfl⟩⟩

/-- C7: under a stable upstream (the same URL gets the same outcome, whoever asks) any two
runs of the concurrent `GetAllCurrencies`, whatever the orders of arrival, return the same
error or tables with the same keys and the same value under every key. -/
theorem C7_idempotence (w : Upstream) (hw : w.Stable) (sched₁ sched₂ : List Actor)
    (r₁ r₂ : Except Error Table) (a₁ a₂ : List Nat)
    (h₁ : Returns w sched₁ r₁ a₁) (h₂ : Returns w sched₂ r₂ a₂) :
    (∃ err, r₁ = .error err ∧ r₂ = .error err) ∨
    (∃ t₁ t₂, r₁ = .ok t₁ ∧ r₂ = .ok t₂ ∧ Table.Same t₁ t₂ ∧
      ∀ c, c ∈ Table.keys t₁ ↔ c ∈ Table.keys t₂) := by
  cases hg : (GetAllSites w).1 with
  | error err =>
    left
    obtain ⟨s₁, hrun₁, hr₁, _⟩ := h₁
    obtain ⟨s₂, hrun₂, hr₂, _⟩ := h₂
    exact ⟨err, returned_is_error w err s₁ r₁ hg (Reachable.inv w s₁ ⟨sched₁, hrun₁⟩) hr₁,
      returned_is_error w err s₂ r₂ hg (Reachable.inv w s₂ ⟨sched₂, hrun₂⟩) hr₂⟩
  | ok sites =>
    right
    have e₁ : ∃ t, r₁ = .ok t := by
      obtain ⟨s₁, hrun₁, hr₁, _⟩ := h₁
      exact returned_is_ok w sites s₁ r₁ hg (Reachable.inv w s₁ ⟨sched₁, hrun₁⟩) hr₁
    have e₂ : ∃ t, r₂ = .ok t := by
      obtain ⟨s₂, hrun₂, hr₂, _⟩ := h₂
      exact returned_is_ok w sites s₂ r₂ hg (Reachable.inv w s₂ ⟨sched₂, hrun₂⟩) hr₂
    obtain ⟨t₁, rfl⟩ := e₁
    obtain ⟨t₂, rfl⟩ := e₂
    obtain ⟨p₁, q₁⟩ := Returns.table_eq w sites sched₁ t₁ a₁ hg h₁
    obtain ⟨p₂, q₂⟩ := Returns.table_eq w sites sched₂ t₂ a₂ hg h₂
    have hsame : Table.Same t₁ t₂ := by
      rw [q₁, q₂]
      exact collect_same_of_stable w hw sites a₁ a₂ p₁ p₂
    exact ⟨t₁, t₂, rfl, rfl, hsame, keys_iff_of_same t₁ t₂ hsame⟩

/-- C7, on two sites that share the currency USD under a stable upstream, with the values
arriving in the two possible orders. -/
theorem C7_idempotence_witness :
    sampleSharedStable.Stable ∧
    Returns sampleSharedStable (inOrderSchedule 2) (.ok [("USD", 1)]) [0, 1] ∧
    Returns sampleSharedStable reverseSchedule (.ok [("USD", 1)]) [1, 0] ∧
    ((∃ err, (Except.ok [("USD", 1)] : Except Error Table) = .error err ∧
        (Except.ok [("USD", 1)] : Except Error Table) = .error err) ∨
      (∃ t₁ t₂, (Except.ok [("USD", 1)] : Except Error Table) = .ok t₁ ∧
        (Except.ok [("USD", 1)] : Except Error Table) = .ok t₂ ∧ Table.Same t₁ t₂ ∧
        ∀ c, c ∈ Table.keys t₁ ↔ c ∈ Table.keys t₂)) :=
  ⟨fun _ _ _ => rfl, ⟨_, rfl, rfl, rfl⟩, ⟨_, rfl, rfl, rfl⟩,
    C7_idempotence sampleSharedStable (fun _ _ _ => rfl) (inOrderSchedule 2) reverseSchedule
      (.ok [("USD", 1)]) (.ok [("USD", 1)]) [0, 1] [1, 0]
      ⟨_, rfl, rfl, rfl⟩ ⟨_, rfl, rfl, rfl⟩⟩

end ApiFetch

namespace ApiFetch
open concurrent

/-- Never more goroutines or `wg.Add` calls than sites. -/
theorem concurrent.Inv.launch_bounds (w : Upstream) (sites : Sites) (s : State)
    (hg : (GetAllSites w).1 = .ok sites) (h : Inv w s) :
    s.procs.length ≤ sites.length ∧ s.adds ≤ sites.length ∧
      (s.handler ≠ HandlerPc.notStarted → s.sites = sites ∧ s.loop = sites.length) := by
  have hm := h.main_ok
  have hst : Started w s → s.sites = sites ∧ s.loop = sites.length := by
    rintro ⟨h1, _, h3⟩
    rw [hg] at h1
    have := (Except.ok.inj h1).symm
    exact ⟨this, by rw [h3, this]⟩
  cases hs : s.main with
  | getAllSites =>
    rw [hs] at hm; simp only [MainOk, Idle] at hm
    exact ⟨by simp [hm.1.2.1], by simp [hm.1.2.2.1], fun hne => absurd hm.1.1 hne⟩
  | goHandleResults =>
    rw [hs] at hm; simp only [MainOk, Idle] at hm
    exact ⟨by simp [hm.1.2.1], by simp [hm.1.2.2.1], fun hne => absurd hm.1.1 hne⟩
  | wgAdd i =>
    rw [hs] at hm; simp only [MainOk] at hm
    obtain ⟨e1, e2⟩ := hst hm.1
    rw [e1] at hm
    exact ⟨by omega, by omega, fun _ => ⟨e1, e2⟩⟩
  | goProcess i =>
    rw [hs] at hm; simp only [MainOk] at hm
    obtain ⟨e1, e2⟩ := hst hm.1
    rw [e1] at hm
    exact ⟨by omega, by omega, fun _ => ⟨e1, e2⟩⟩
  | wgWait =>
    rw [hs] at hm; simp only [MainOk] at hm
    obtain ⟨e1, e2⟩ := hst hm.1
    rw [e1] at hm
    exact ⟨by omega, by omega, fun _ => ⟨e1, e2⟩⟩
  | returned r =>
    rw [hs] at hm
    cases r with
    | ok t =>
      simp only [MainOk] at hm
      obtain ⟨e1, e2⟩ := hst hm.1
      rw [e1] at hm
      exact ⟨by omega, by omega, fun _ => ⟨e1, e2⟩⟩
    | error e =>
      simp only [MainOk, Idle] at hm
      exact ⟨by simp [hm.1.2.1], by simp [hm.1.2.2.1], fun hne => absurd hm.1.1 hne⟩

/-- C8: when `N` sites are fetched, every run of the concurrent `GetAllCurrencies` launches
at most `N` goroutines, calls `wg.Add` at most `N` times, and `HandleResults` receives at
most `N` values, each from another goroutine (the value the goroutine resolved, `nil` when
the resolution fails), and calls `wg.Done` at most `N` times; when `HandleResults` has
returned, and when `GetAllCurrencies` has returned, these numbers are exactly `N` and every
goroutine has delivered once.  No run has more than `7 N + 7` steps, in every state
either every goroutine has returned or some goroutine can move, and every run can be
completed.  For `N = 0` no goroutine is launched, no value is received and the empty table
is returned with a nil error. -/
theorem C8_known_arity (w : Upstream) (sites : Sites) (hg : (GetAllSites w).1 = .ok sites) :
    (∀ sched s, exec w sched State.init = some s →
      s.procs.length ≤ sites.length ∧ s.adds ≤ sites.length ∧
      s.arrivals.length ≤ sites.length ∧ s.dones ≤ sites.length ∧
      s.arrivals.Nodup ∧
      (∀ k conv, s.procs[k]? = some (ProcessPc.send conv) → conv = message w sites k) ∧
      (∀ k, k ∈ s.arrivals → s.procs[k]? = some ProcessPc.returned) ∧
      (s.handler = HandlerPc.returned →
        s.arrivals.length = sites.length ∧ s.dones = sites.length) ∧
      (∀ r, s.main = MainPc.returned r →
        r = .ok s.result ∧ s.procs.length = sites.length ∧ s.adds = sites.length ∧
        s.arrivals.length = sites.length ∧ s.dones = sites.length ∧
        s.arrivals.Perm (List.range sites.length)) ∧
      sched.length ≤ 7 * sites.length + 7 ∧
      (Final s ∨ ∃ a s', step w s a = some s') ∧
      ∃ rest s', exec w rest s = some s' ∧ Final s') ∧
    (∀ k, message w sites k = none ↔ resolves w sites k = false) ∧
    (sites = [] →
      Returns w (inOrderSchedule 0) (.ok []) [] ∧
      ∀ sched s, exec w sched State.init = some s →
        s.procs = [] ∧ s.arrivals = [] ∧ s.adds = 0 ∧ s.dones = 0 ∧
        ∀ r, s.main = MainPc.returned r → r = .ok []) := by
  have hall : ∀ sched s, exec w sched State.init = some s →
      s.procs.length ≤ sites.length ∧ s.adds ≤ sites.length ∧
      s.arrivals.length ≤ sites.length ∧ s.dones ≤ sites.length ∧
      s.arrivals.Nodup ∧
      (∀ k conv, s.procs[k]? = some (ProcessPc.send conv) → conv = message w sites k) ∧
      (∀ k, k ∈ s.arrivals → s.procs[k]? = some ProcessPc.returned) ∧
      (s.handler = HandlerPc.returned →
        s.arrivals.length = sites.length ∧ s.dones = sites.length) ∧
      (∀ r, s.main = MainPc.returned r →
        r = .ok s.result ∧ s.procs.length = sites.length ∧ s.adds = sites.length ∧
        s.arrivals.length = sites.length ∧ s.dones = sites.length ∧
        s.arrivals.Perm (List.range sites.length)) ∧
      sched.length ≤ 7 * sites.length + 7 ∧
      (Final s ∨ ∃ a s', step w s a = some s') ∧
      ∃ rest s', exec w rest s = some s' ∧ Final s' := by
    intro sched s hrun
    have hinv := Reachable.inv w s ⟨sched, hrun⟩
    obtain ⟨b1, b2, b3⟩ := hinv.launch_bounds w sites s hg
    have hal := length_le_of_nodup_of_lt _ _ hinv.arrivals_nodup hinv.arrivals_lt
    have hdl := hinv.dones_le
    have hcount : siteCount w = sites.length := by simp only [siteCount, hg]
    refine ⟨b1, b2, by omega, by omega, hinv.arrivals_nodup, ?_, ?_, ?_, ?_, ?_,
      progress_of_inv w s hinv, exists_final_of_inv w _ s hinv (Nat.le_refl _)⟩
    · intro k conv hk
      have hp := hinv.procs_ok k _ hk
      simp only [ProcOk] at hp
      have hst := hinv.procs_started w s k _ hk
      rw [(b3 hst).1] at hp
      exact hp.2
    · intro k hk
      have hlt := hinv.arrivals_lt k hk
      have hget : s.procs[k]? = some s.procs[k] := List.getElem?_eq_getElem hlt
      have hp := hinv.procs_ok k _ hget
      cases hpk : s.procs[k] with
      | resolve siteId => rw [hpk] at hp; simp only [ProcOk] at hp; exact absurd hk hp.1
      | send conv => rw [hpk] at hp; simp only [ProcOk] at hp; exact absurd hk hp.1
      | returned => rw [hget, hpk]
      | panicked => rw [hpk] at hp; simp only [ProcOk] at hp
    · intro hr
      obtain ⟨_, g2, g3, _⟩ := hinv.handler_returned w s hr
      have := b3 (by rw [hr]; simp)
      rw [this.1] at g2 g3
      exact ⟨g2, g3⟩
    · intro r hr
      obtain ⟨t, rfl⟩ := returned_is_ok w sites s r hg hinv hr
      obtain ⟨_, g2, g3, g4, g5, g6, _, g8, _⟩ := hinv.returned_ok w s t hr
      have hs := sites_eq_of_returned w sites s t hg hinv hr
      rw [hs] at g2 g3 g4 g5 g6
      exact ⟨by rw [g8], g2, g3, g5, g4, g6⟩
    · have := stepsLeft_exec w sched State.init s (Inv.init w) hrun
      rw [stepsLeft_init, hcount] at this
      omega
  refine ⟨hall, message_none_iff w sites, ?_⟩
  intro hnil
  subst hnil
  refine ⟨?_, ?_⟩
  · obtain ⟨s, t, h1, h2, _, h4⟩ := inOrderSchedule_spec w [] hg
    have hinv := Reachable.inv w s ⟨_, h1⟩
    obtain ⟨_, _, _, _, _, _, g7, g8, _⟩ := hinv.returned_ok w s t h2
    simp only [List.length_nil, List.range_zero] at h4 h1
    have ht : t = [] := by
      rw [g8, g7, h4]
      rfl
    rw [ht] at h2
    exact ⟨s, h1, h2, h4⟩
  · intro sched s hrun
    obtain ⟨c1, c2, c3, c4, _, _, _, _, c9, _⟩ := hall sched s hrun
    simp only [List.length_nil, Nat.le_zero_eq, List.length_eq_zero] at c1 c2 c3 c4
    refine ⟨c1, c3, c2, c4, ?_⟩
    intro r hr
    have hinv := Reachable.inv w s ⟨sched, hrun⟩
    obtain ⟨t, rfl⟩ := returned_is_ok w [] s r hg hinv hr
    obtain ⟨_, _, _, _, _, _, g7, g8, _⟩ := hinv.returned_ok w s t hr
    rw [g8, g7, c3]
    rfl

/-- C8, on the two sites MLA and MLB. -/
theorem C8_known_arity_witness :
    Returns sampleTwoSites (inOrderSchedule 2) (.ok [("ARS", 0.0025), ("BRL", 0.20)]) [0, 1] ∧
    ∀ sched s, exec sampleTwoSites sched State.init = some s →
      s.procs.length ≤ 2 ∧ s.adds ≤ 2 ∧ s.arrivals.length ≤ 2 ∧ s.dones ≤ 2 ∧
      s.arrivals.Nodup ∧
      (∀ k conv, s.procs[k]? = some (ProcessPc.send conv) →
        conv = message sampleTwoSites [⟨"MLA", "Argentina"⟩, ⟨"MLB", "Brasil"⟩] k) ∧
      (∀ k, k ∈ s.arrivals → s.procs[k]? = some ProcessPc.returned) ∧
      (s.handler = HandlerPc.returned → s.arrivals.length = 2 ∧ s.dones = 2) ∧
      (∀ r, s.main = MainPc.returned r →
        r = .ok s.result ∧ s.procs.length = 2 ∧ s.adds = 2 ∧
        s.arrivals.length = 2 ∧ s.dones = 2 ∧ s.arrivals.Perm (List.range 2)) ∧
      sched.length ≤ 7 * 2 + 7 ∧
      (Final s ∨ ∃ a s', step sampleTwoSites s a = some s') ∧
      ∃ rest s', exec sampleTwoSites rest s = some s' ∧ Final s' :=
  ⟨⟨_, rfl, rfl, rfl⟩,
    (C8_known_arity sampleTwoSites [⟨"MLA", "Argentina"⟩, ⟨"MLB", "Brasil"⟩] rfl).1⟩

/-- C9: the sequential program is the concurrent program with the values arriving in the
order of the site list: every run of the concurrent `GetAllCurrencies` in which the values
arrive in that order returns the table and the error the sequential `GetAllCurrencies`
returns, and there is such a run. -/
theorem C9_sequential_is_in_order (w : Upstream) :
    (∀ sched r, Returns w sched r (List.range (siteCount w)) →
      r = (single_thread.GetAllCurrencies w).1) ∧
    ∃ sched, Returns w sched (single_thread.GetAllCurrencies w).1
      (List.range (siteCount w)) := by
  cases hg : (GetAllSites w).1 with
  | error err =>
    have hseq : (single_thread.GetAllCurrencies w).1 = .error err := by
      rw [single_thread.GetAllCurrencies_eq, hg]
    have hcount : siteCount w = 0 := by simp only [siteCount, hg]
    rw [hseq, hcount]
    refine ⟨?_, ?_⟩
    · rintro sched r ⟨s, hrun, hr, _⟩
      exact returned_is_error w err s r hg (Reachable.inv w s ⟨sched, hrun⟩) hr
    · have hreq := GetAllSites_requests w
      cases hgs : GetAllSites w with
      | mk res reqs =>
        rw [hgs] at hg
        simp only at hg
        subst hg
        refine ⟨[Actor.main],
          { State.init with main := MainPc.returned (.error err),
                            requests := [] ++ reqs }, ?_, rfl, rfl⟩
        simp only [exec, step, stepMain, State.init, hgs, Option.some_bind]
  | ok sites =>
    have hseq := single_thread.GetAllCurrencies_ok w sites hg
    have hcount : siteCount w = sites.length := by simp only [siteCount, hg]
    rw [hseq, hcount]
    refine ⟨?_, ?_⟩
    · rintro sched r ⟨s, hrun, hr, ha⟩
      obtain ⟨t, rfl⟩ := returned_is_ok w sites s r hg (Reachable.inv w s ⟨sched, hrun⟩) hr
      obtain ⟨_, ht⟩ := Returns.table_eq w sites sched t _ hg ⟨s, hrun, hr, ha⟩
      rw [ht]
    · obtain ⟨s, t, h1, h2, _, h4⟩ := inOrderSchedule_spec w sites hg
      obtain ⟨_, ht⟩ := Returns.table_eq w sites _ t _ hg ⟨s, h1, h2, h4⟩
      rw [ht] at h2
      exact ⟨_, s, h1, h2, h4⟩

/-- C9, on the two sites MLA and MLB served in the order of the site list. -/
theorem C9_sequential_is_in_order_witness :
    Returns sampleTwoSites (inOrderSchedule 2) (.ok [("ARS", 0.0025), ("BRL", 0.20)])
      (List.range (siteCount sampleTwoSites)) ∧
    (Except.ok [("ARS", 0.0025), ("BRL", 0.20)] : Except Error Table) =
      (single_thread.GetAllCurrencies sampleTwoSites).1 :=
  ⟨⟨_, rfl, rfl, rfl⟩,
    (C9_sequential_is_in_order sampleTwoSites).1 (inOrderSchedule 2)
      (.ok [("ARS", 0.0025), ("BRL", 0.20)]) ⟨_, rfl, rfl, rfl⟩⟩

/-- C10: in every state of every run of the concurrent `GetAllCurrencies` the WaitGroup
counter is not negative; `wg.Wait()` is passed only in a state in which `HandleResults` has
received a value from each of the `N` goroutines, has stored every non-nil one and has
called `wg.Done()` `N` times; and in every state in which `GetAllCurrencies` has returned a
table, that table is the map `HandleResults` has completed, no goroutine is left at its
send and `HandleResults` is past its last receive. -/
theorem C10_no_partial_results (w : Upstream) (sched : List Actor) (s : State)
    (h : exec w sched State.init = some s) :
    0 ≤ s.wg ∧
    (∀ s', s.main = MainPc.wgWait → stepMain w s = some s' →
      s.arrivals.Perm (List.range s.sites.length) ∧ s.dones = s.sites.length ∧
      s.result = HandleResults.collect [] (s.arrivals.map (message w s.sites)) ∧
      s'.main = MainPc.returned (.ok s.result)) ∧
    (∀ t, s.main = MainPc.returned (.ok t) →
      s.arrivals.Perm (List.range s.sites.length) ∧ s.dones = s.sites.length ∧
      t = s.result ∧
      s.result = HandleResults.collect [] (s.arrivals.map (message w s.sites)) ∧
      (∀ p ∈ s.procs, p = ProcessPc.returned) ∧
      (s.handler = HandlerPc.receive s.sites.length ∨ s.handler = HandlerPc.returned ∨
        (s.handler = HandlerPc.entry ∧ s.sites.length = 0))) := by
  have hinv := Reachable.inv w s ⟨sched, h⟩
  have hret : ∀ (u : State) (t : Table), Inv w u → u.main = MainPc.returned (.ok t) →
      u.arrivals.Perm (List.range u.sites.length) ∧ u.dones = u.sites.length ∧
      t = u.result ∧
      u.result = HandleResults.collect [] (u.arrivals.map (message w u.sites)) ∧
      (∀ p ∈ u.procs, p = ProcessPc.returned) ∧
      (u.handler = HandlerPc.receive u.sites.length ∨ u.handler = HandlerPc.returned ∨
        (u.handler = HandlerPc.entry ∧ u.sites.length = 0)) := by
    intro u t hu hr
    obtain ⟨_, g2, _, g4, _, g6, g7, g8, g9⟩ := hu.returned_ok w u t hr
    refine ⟨g6, g4, g8, g7, ?_, g9⟩
    intro p hp
    obtain ⟨k, hk⟩ := List.mem_iff_getElem?.mp hp
    have hlt : k < u.procs.length := by
      rcases Nat.lt_or_ge k u.procs.length with hlt | hge
      · exact hlt
      · rw [List.getElem?_eq_none hge] at hk
        cases hk
    have hmem : k ∈ u.arrivals := by
      rw [g6.mem_iff]
      simp only [List.mem_range]
      omega
    have hpk := hu.procs_ok k p hk
    cases p with
    | resolve siteId => simp only [ProcOk] at hpk; exact absurd hmem hpk.1
    | send conv => simp only [ProcOk] at hpk; exact absurd hmem hpk.1
    | returned => rfl
    | panicked => simp only [ProcOk] at hpk
  refine ⟨hinv.wg_nonneg, ?_, fun t hr => hret s t hinv hr⟩
  intro s' hpc hstep
  have hinv' := Inv.stepMain w s s' hinv hstep
  unfold stepMain at hstep
  simp only [hpc] at hstep
  split at hstep
  · cases hstep
    obtain ⟨a1, a2, _, a4, _, _⟩ := hret _ s.result hinv' rfl
    exact ⟨a1, a2, a4, rfl⟩
  · cases hstep

/-- C10, on the state in which `GetAllCurrencies` returns for the two sites MLA and MLB. -/
theorem C10_no_partial_results_witness :
    exec sampleTwoSites (inOrderSchedule 2) State.init = some sampleTwoSitesReturned ∧
    0 ≤ sampleTwoSitesReturned.wg ∧
    (∀ s', sampleTwoSitesReturned.main = MainPc.wgWait →
      stepMain sampleTwoSites sampleTwoSitesReturned = some s' →
      sampleTwoSitesReturned.arrivals.Perm (List.range sampleTwoSitesReturned.sites.length) ∧
      sampleTwoSitesReturned.dones = sampleTwoSitesReturned.sites.length ∧
      sampleTwoSitesReturned.result = HandleResults.collect []
        (sampleTwoSitesReturned.arrivals.map
          (message sampleTwoSites sampleTwoSitesReturned.sites)) ∧
      s'.main = MainPc.returned (.ok sampleTwoSitesReturned.result)) ∧
    (∀ t, sampleTwoSitesReturned.main = MainPc.returned (.ok t) →
      sampleTwoSitesReturned.arrivals.Perm (List.range sampleTwoSitesReturned.sites.length) ∧
      sampleTwoSitesReturned.dones = sampleTwoSitesReturned.sites.length ∧
      t = sampleTwoSitesReturned.result ∧
      sampleTwoSitesReturned.result = HandleResults.collect []
        (sampleTwoSitesReturned.arrivals.map
          (message sampleTwoSites sampleTwoSitesReturned.sites)) ∧
      (∀ p ∈ sampleTwoSitesReturned.procs, p = ProcessPc.returned) ∧
      (sampleTwoSitesReturned.handler =
          HandlerPc.receive sampleTwoSitesReturned.sites.length ∨
        sampleTwoSitesReturned.handler = HandlerPc.returned ∨
        (sampleTwoSitesReturned.handler = HandlerPc.entry ∧
          sampleTwoSitesReturned.sites.length = 0))) :=
  ⟨rfl, C10_no_partial_results sampleTwoSites (inOrderSchedule 2) sampleTwoSitesReturned rfl⟩

end ApiFetch
